import Mathlib

/-!
Verification of FairClaimRCM core services against their specification.

Shallow embedding of the Python sources:
  - `api/services/reimbursement_service.py` (modifier adjustments, global
    high-cost-diagnosis adjustment, DRG vs CPT totals),
  - `core/terminology/drg_service.py` (complexity level, DRG candidates),
  - `core/terminology/icd10_service.py` (validation, rule-based matching),
  - `api/services/coding_service.py` (recommendation combiner),
  - `core/ml/code_predictor.py` (heuristic predictor).

Python `Decimal`/`float` arithmetic is embedded as exact rational arithmetic
over `ℚ`; Python lists and (insertion-ordered) dicts are embedded as Lean
lists, dicts as association lists whose update operations keep first-insertion
order exactly as Python dicts do.
-/

namespace FairClaimRCM

/-! ### String helpers

Python's `needle in haystack`, `str.startswith`, `str.lower`, `str.count` and
slicing are embedded on the underlying character lists. -/

/-- `listStarts n h` holds when `n` is a leading segment of `h`. -/
def listStarts : List Char → List Char → Bool
  | [], _ => true
  | _ :: _, [] => false
  | a :: as, b :: bs => a == b && listStarts as bs

/-- Substring occurrence test on character lists (Python `n in h`). -/
def listIsInfix (n : List Char) : List Char → Bool
  | [] => listStarts n []
  | c :: t => listStarts n (c :: t) || listIsInfix n t

/-- Python `needle in hay` (substring containment). -/
def substr (needle hay : String) : Bool := listIsInfix needle.data hay.data

/-- Python `s.lower()` (ASCII case folding, as used on the data here). -/
def lowerString (s : String) : String := String.mk (s.data.map Char.toLower)

/-- Python `s.startswith(pfx)`. -/
def strStarts (s pfx : String) : Bool := listStarts pfx.data s.data

/-- Python `s[:n]`. -/
def strTake (s : String) (n : Nat) : String := String.mk (s.data.take n)

/-- Non-overlapping occurrence count for a nonempty needle,
scanning left to right exactly like Python's `str.count`. -/
def pyCountNE (sub : List Char) (s : List Char) : Nat :=
  match s with
  | [] => 0
  | c :: rest =>
    if listStarts sub (c :: rest) then 1 + pyCountNE sub (rest.drop (sub.length - 1))
    else pyCountNE sub rest
termination_by s.length
decreasing_by
  · simp only [List.length_drop, List.length_cons]
    omega
  · simp only [List.length_cons]
    omega

/-- Python `hay.count(sub)` (an empty needle counts `len + 1` times). -/
def pyCount (sub hay : String) : Nat :=
  match sub.data with
  | [] => hay.data.length + 1
  | c :: t => pyCountNE (c :: t) hay.data

/-! ### Stable descending sort by a rational key

Python's `sorted(..., key=..., reverse=True)` is a stable sort placing larger
keys first; ties keep first-seen order.  The insertion sort below has exactly
that behaviour: an element is inserted before the first position whose key is
not larger. -/

/-- Insert `x` into a descending-sorted list, after all strictly larger keys
and before all keys `≤ key x` (so equal keys keep first-seen order). -/
def insertDesc (key : α → ℚ) (x : α) : List α → List α
  | [] => [x]
  | y :: ys => if key y ≤ key x then x :: y :: ys else y :: insertDesc key x ys

/-- Stable sort, descending in `key`. -/
def sortByDesc (key : α → ℚ) : List α → List α
  | [] => []
  | x :: xs => insertDesc key x (sortByDesc key xs)

/-! ### ReimbursementEngine — `api/services/reimbursement_service.py`

`Decimal` currency arithmetic is embedded as `ℚ`. -/

/-- `_apply_cpt_modifiers`: every modifier in the list adds or subtracts a
fixed fraction of `base_amount` to a running adjustment started at `0`. -/
def apply_cpt_modifiers (modifiers : List String) (base_amount : ℚ) : ℚ :=
  modifiers.foldl (fun adjustment m =>
    if m = "50" then adjustment + base_amount * 0.50
    else if m = "51" then adjustment - base_amount * 0.25
    else if m = "52" then adjustment - base_amount * 0.50
    else if m = "22" then adjustment + base_amount * 0.25
    else if m = "53" then adjustment - base_amount * 0.75
    else adjustment) 0

/-- The signed per-modifier delta (spec-side reformulation of the branches of
`_apply_cpt_modifiers`, used to state additivity). -/
def modifierDelta (base_amount : ℚ) (m : String) : ℚ :=
  if m = "50" then base_amount * 0.50
  else if m = "51" then -(base_amount * 0.25)
  else if m = "52" then -(base_amount * 0.50)
  else if m = "22" then base_amount * 0.25
  else if m = "53" then -(base_amount * 0.75)
  else 0

/-- The `high_cost_diagnoses` prefix table of `_apply_global_adjustments`. -/
def high_cost_diagnoses : List String := ["C78", "C79", "I21", "I22"]

/-- One ICD-10 code qualifies when it starts with any high-cost prefix (the
inner loop of `_apply_global_adjustments`; its `break` only stops scanning
further prefixes for the same code). -/
def isHighCostDiagnosis (icd_code : String) : Bool :=
  high_cost_diagnoses.any (fun p => strStarts icd_code p)

/-- `_apply_global_adjustments` restricted to the running total: the outer
loop visits every ICD-10 code and each qualifying code adds 10% of the
then-current total. -/
def apply_global_adjustments (total : ℚ) (icd10_codes : List String) : ℚ :=
  icd10_codes.foldl
    (fun t icd_code => if isHighCostDiagnosis icd_code then t + t * 0.10 else t) total

/-- The DRG codes present in `DRGService._load_sample_data` (`drg_data`). -/
def drg_data_codes : List String := ["280", "281", "282", "190", "191", "638", "684"]

/-- `drg_base_rates` lookup with its `"default"` entry. -/
def drg_base_rate (drg_code : String) : ℚ :=
  if drg_code = "001" then 15000
  else if drg_code = "002" then 12000
  else if drg_code = "003" then 10000
  else if drg_code = "470" then 45000
  else 8000

/-- `medicaid_rates` lookup with its `"default"` entry. -/
def medicaid_rate (state : String) : ℚ :=
  if state = "AL" then 0.75 else if state = "AK" then 1.20
  else if state = "AZ" then 0.85 else if state = "AR" then 0.70
  else if state = "CA" then 0.95 else if state = "CO" then 0.90
  else if state = "CT" then 1.05 else if state = "DE" then 0.85
  else if state = "FL" then 0.80 else if state = "GA" then 0.75
  else 0.80

/-- `commercial_multipliers` lookup with its `"default"` entry. -/
def commercial_multiplier (payer : String) : ℚ :=
  if payer = "aetna" then 1.15 else if payer = "anthem" then 1.20
  else if payer = "cigna" then 1.18 else if payer = "united_healthcare" then 1.22
  else if payer = "humana" then 1.12 else 1.20

/-- `payer_name.lower() if payer_name else "default"`. -/
def commercial_payer_key (payer_name : Option String) : String :=
  match payer_name with
  | some n => lowerString n
  | none => "default"

/-- `_calculate_drg_reimbursement` as written in the source: its first
statement calls `self.drg_service.get_drg_details(drg_code)`, but `DRGService`
(`core/terminology/drg_service.py`) defines no `get_drg_details` method, so
every invocation raises `AttributeError`, which the surrounding `except`
re-raises as a generic failure.  Embedded as the error branch. -/
def calculate_drg_reimbursement (_drg_code _payer_type : String)
    (_payer_name : Option String) (_state : String) : Except String ℚ :=
  Except.error "Failed to calculate DRG reimbursement: AttributeError: get_drg_details"

/-- Modelled from the spec: `DRGService.get_drg_details` is missing from the
source, so the intended DRG payment is taken from spec section 4.5 — a known
DRG pays `base_rate_table[drg]` times the three-way payer adjustment
(Medicare unscaled, Medicaid times state rate, Commercial times multiplier),
an unknown DRG fails. -/
def drg_payment_spec (drg_code payer_type : String) (payer_name : Option String)
    (state : String) : Option ℚ :=
  if drg_data_codes.contains drg_code then
    let base := drg_base_rate drg_code
    if payer_type = "medicare" then some base
    else if payer_type = "medicaid" then some (base * medicaid_rate state)
    else some (base * commercial_multiplier (commercial_payer_key payer_name))
  else none

/-- The `total_reimbursement` dataflow of `calculate_claim_reimbursement`:
`cpt_total` stands for the `total_reimbursement` field returned by the CPT
phase `_calculate_cpt_reimbursement` (`0` when `cpt_codes` is empty); it is
added to the zero-initialised total, a supplied DRG code then **overwrites**
(not adds to) the total with the DRG payment, and `_apply_global_adjustments`
runs last.  The `Except` propagates the exception raised by the DRG phase. -/
def claim_total_reimbursement (cpt_total : ℚ) (drg_code : Option String)
    (payer_type : String) (payer_name : Option String) (state : String)
    (icd10_codes : List String) : Except String ℚ :=
  let total := (0 : ℚ) + cpt_total
  match drg_code with
  | none => Except.ok (apply_global_adjustments total icd10_codes)
  | some d =>
    match calculate_drg_reimbursement d payer_type payer_name state with
    | Except.error e => Except.error ("Failed to calculate reimbursement: " ++ e)
    | Except.ok p => Except.ok (apply_global_adjustments p icd10_codes)

/-- Modelled from the spec: the same total dataflow with the intended DRG
payment (`drg_payment_spec`) in place of the raising `get_drg_details` call. -/
def claim_total_reimbursement_spec (cpt_total : ℚ) (drg_code : Option String)
    (payer_type : String) (payer_name : Option String) (state : String)
    (icd10_codes : List String) : Option ℚ :=
  let total := (0 : ℚ) + cpt_total
  match drg_code with
  | none => some (apply_global_adjustments total icd10_codes)
  | some d =>
    (drg_payment_spec d payer_type payer_name state).map
      (fun p => apply_global_adjustments p icd10_codes)

/-! ### DRGService — `core/terminology/drg_service.py` -/

/-- `mcc_indicators` of `_determine_complexity_level`. -/
def mcc_indicators : List String := ["N18.6", "I21", "J44.0"]

/-- `cc_indicators` of `_determine_complexity_level`. -/
def cc_indicators : List String := ["E11", "I10", "J44.1"]

def matchesMccIndicator (diagnosis : String) : Bool :=
  mcc_indicators.any (fun p => strStarts diagnosis p)

def matchesCcIndicator (diagnosis : String) : Bool :=
  cc_indicators.any (fun p => strStarts diagnosis p)

/-- `_determine_complexity_level`: scans the secondary diagnoses in list
order; for each diagnosis the MCC indicators are checked before the CC
indicators and the first hit returns immediately. -/
def determine_complexity_level : List String → String
  | [] => "None"
  | diagnosis :: rest =>
    if matchesMccIndicator diagnosis then "MCC"
    else if matchesCcIndicator diagnosis then "CC"
    else determine_complexity_level rest

/-- Python dict lookup in an insertion-ordered association table. -/
def lookupMapping (mappings : List (String × List String)) (k : String) :
    Option (List String) :=
  (mappings.find? (fun e => e.fst == k)).map (fun e => e.snd)

/-- The candidate-DRG selection of `find_drg_by_diagnosis`:
`diagnosis_mappings.get(primary, [])` first; when that list is missing or
empty, every mapping entry whose key starts with the 3-character category
prefix `primary[:3]` contributes its DRG list, in table order. -/
def find_drg_candidates (mappings : List (String × List String))
    (primary_diagnosis : String) : List String :=
  let potential := (lookupMapping mappings primary_diagnosis).getD []
  if potential.isEmpty then
    let pfx := strTake primary_diagnosis 3
    mappings.foldl (fun acc e => if strStarts e.fst pfx then acc ++ e.snd else acc) []
  else potential

/-- `primary_diagnoses` of each sample DRG (`_load_sample_data`), in
insertion order. -/
def drg_primary_diagnoses : List (String × List String) := [
  ("280", ["I21.0", "I21.1", "I21.2", "I21.9"]),
  ("281", ["I21.0", "I21.1", "I21.2", "I21.9"]),
  ("282", ["I21.0", "I21.1", "I21.2", "I21.9"]),
  ("190", ["J44.0", "J44.1", "J44.9"]),
  ("191", ["J44.0", "J44.1", "J44.9"]),
  ("638", ["E11.0", "E11.1", "E11.9"]),
  ("684", ["N18.5", "N18.6", "N19"])]

/-- One step of the `diagnosis_mappings` construction: append `drg` to the
list stored under `diagnosis`, creating the key on first use. -/
def add_diag_mapping (acc : List (String × List String)) (diagnosis drg : String) :
    List (String × List String) :=
  if acc.any (fun p => p.fst == diagnosis) then
    acc.map (fun p => if p.fst == diagnosis then (p.fst, p.snd ++ [drg]) else p)
  else acc ++ [(diagnosis, [drg])]

/-- The inverted `diagnosis_mappings` table built by `_load_sample_data`. -/
def diagnosis_mappings : List (String × List String) :=
  drg_primary_diagnoses.foldl
    (fun acc e => e.snd.foldl (fun a d => add_diag_mapping a d e.fst) acc) []

/-- The table state hypothesised by the DRG-fallback property: the sample
`diagnosis_mappings` with the exact `"I21.9"` entry absent. -/
def diagnosis_mappings_without_I21_9 : List (String × List String) :=
  diagnosis_mappings.filter (fun e => e.fst ≠ "I21.9")

/-! ### ICD10Service — `core/terminology/icd10_service.py` -/

/-- One `codes_data` row. -/
structure Icd10Entry where
  description : String
  category : String
  billable : Bool
  keywords : List String
deriving DecidableEq

/-- `codes_data` from `ICD10Service._load_sample_data`. -/
def icd10_codes_data : List (String × Icd10Entry) := [
  ("I21.9", ⟨"Acute myocardial infarction, unspecified",
    "Diseases of the circulatory system", true,
    ["myocardial infarction", "heart attack", "MI", "chest pain", "cardiac arrest"]⟩),
  ("J44.1", ⟨"Chronic obstructive pulmonary disease with acute exacerbation",
    "Diseases of the respiratory system", true,
    ["COPD", "chronic obstructive", "breathing difficulty", "shortness of breath"]⟩),
  ("N18.6", ⟨"End stage renal disease",
    "Diseases of the genitourinary system", true,
    ["kidney failure", "renal failure", "dialysis", "ESRD"]⟩),
  ("E11.9", ⟨"Type 2 diabetes mellitus without complications",
    "Endocrine, nutritional and metabolic diseases", true,
    ["diabetes", "blood sugar", "hyperglycemia", "diabetic"]⟩),
  ("K92.2", ⟨"Gastrointestinal hemorrhage, unspecified",
    "Diseases of the digestive system", true,
    ["GI bleed", "gastrointestinal bleeding", "blood in stool", "hematemesis"]⟩)]

/-- `code in self.codes_data` plus field access, as one lookup. -/
def icd10_lookup (code : String) : Option Icd10Entry :=
  (icd10_codes_data.find? (fun e => e.fst == code)).map (fun e => e.snd)

/-- The structured result of `ICD10Service.validate_code`; absent dict keys
are `none`. -/
structure ValidationResult where
  valid : Bool
  code : String
  description : Option String
  category : Option String
  billable : Option Bool
  error : Option String
deriving DecidableEq

/-- `ICD10Service.validate_code`: a total membership test on the loaded
table — both branches return a structured dict, no exception path exists. -/
def validate_code (code : String) : ValidationResult :=
  match icd10_lookup code with
  | some entry =>
    ⟨true, code, some entry.description, some entry.category, some entry.billable, none⟩
  | none => ⟨false, code, none, none, none, some "Code not found in terminology database"⟩

/-- A `(code, confidence)` candidate as produced by the rule-based matchers;
the `match_reason` string is not tracked because no claim inspects it. -/
structure CandidateRec where
  code : String
  confidence : ℚ
deriving DecidableEq

/-- One step of the `keyword_mappings` construction in `_load_sample_data`:
append the `(code, 0.8)` match under key `kw`, creating the key on first
use (Python dict insertion order). -/
def add_keyword_mapping (acc : List (String × List CandidateRec)) (kw code : String) :
    List (String × List CandidateRec) :=
  if acc.any (fun p => p.fst == kw) then
    acc.map (fun p => if p.fst == kw then (p.fst, p.snd ++ [⟨code, 0.8⟩]) else p)
  else acc ++ [(kw, [⟨code, 0.8⟩])]

/-- The `keyword_mappings` table built by `_load_sample_data`. -/
def keyword_mappings : List (String × List CandidateRec) :=
  icd10_codes_data.foldl
    (fun acc e => e.snd.keywords.foldl (fun a kw => add_keyword_mapping a kw e.fst) acc) []

/-- The direct-keyword-matching loop of `find_codes_by_text`: a keyword whose
lower-cased text occurs in the lower-cased clinical text emits one candidate
per stored match, with a repeat-occurrence bonus capped at `0.95`. -/
def keyword_recommendations (clinical_text : String) : List CandidateRec :=
  let text_lower := lowerString clinical_text
  keyword_mappings.flatMap (fun p =>
    if substr (lowerString p.fst) text_lower then
      p.snd.map (fun m =>
        let keyword_count : ℚ := (pyCount (lowerString p.fst) text_lower : ℚ)
        ⟨m.code, min 0.95 (m.confidence + (keyword_count - 1) * 0.1)⟩)
    else [])

/-- One `_pattern_based_matching` table row: the source regex is an
alternation of literal phrases, matched with `re.IGNORECASE`. -/
structure PatternRule where
  phrases : List String
  codes : List String
  confidence : ℚ

/-- The `patterns` table of `_pattern_based_matching`. -/
def icd10_pattern_rules : List PatternRule := [
  ⟨["chest pain", "cardiac", "myocardial", "heart attack"], ["I21.9"], 0.7⟩,
  ⟨["shortness of breath", "dyspnea", "COPD", "respiratory"], ["J44.1"], 0.7⟩,
  ⟨["diabetes", "diabetic", "blood sugar", "hyperglycemia"], ["E11.9"], 0.75⟩,
  ⟨["kidney", "renal", "dialysis", "nephritis"], ["N18.6"], 0.7⟩]

/-- `_pattern_based_matching`: a rule whose alternation matches (some phrase
occurs case-insensitively) emits one candidate per target code. -/
def pattern_based_matching (text : String) : List CandidateRec :=
  icd10_pattern_rules.flatMap (fun rule =>
    if rule.phrases.any (fun ph => substr (lowerString ph) (lowerString text)) then
      rule.codes.map (fun c => ⟨c, rule.confidence⟩)
    else [])

/-- The full pre-deduplication candidate list of `find_codes_by_text`:
keyword matches first, then pattern matches. -/
def raw_recommendations (clinical_text : String) : List CandidateRec :=
  keyword_recommendations clinical_text ++ pattern_based_matching clinical_text

/-- The de-duplication loop body of `find_codes_by_text`: the first
occurrence of a code keeps its dict slot; a strictly higher confidence
replaces the stored entry in place. -/
def dedupStep (acc : List CandidateRec) (r : CandidateRec) : List CandidateRec :=
  match acc.find? (fun e => e.code == r.code) with
  | none => acc ++ [r]
  | some e =>
    if e.confidence < r.confidence then
      acc.map (fun x => if x.code == r.code then r else x)
    else acc

/-- `unique_recommendations` of `find_codes_by_text`. -/
def dedupMax (l : List CandidateRec) : List CandidateRec := l.foldl dedupStep []

/-- `ICD10Service.find_codes_by_text`: generate, de-duplicate keeping the
highest confidence, sort descending by confidence (Python's stable sort). -/
def find_codes_by_text (clinical_text : String) : List CandidateRec :=
  sortByDesc (fun r => r.confidence) (dedupMax (raw_recommendations clinical_text))

/-- Proof-side companion of `dedupStep`: how the dict slot of one fixed code
`c` evolves while the de-duplication loop processes one candidate. -/
def bestStep (c : String) (o : Option CandidateRec) (r : CandidateRec) :
    Option CandidateRec :=
  if r.code == c then
    match o with
    | none => some r
    | some e => if e.confidence < r.confidence then some r else some e
  else o

/-! ### Recommendation combiner — `api/services/coding_service.py` -/

/-- `RecommendationSource` from `api/models/schemas.py`. -/
inductive RecommendationSource where
  | rule_based
  | ml_model
  | hybrid
deriving DecidableEq

/-- One entry of the `all_recommendations` dict in `_combine_recommendations`
(`rule_match`/`ml_features` bookkeeping fields are not tracked because no
claim inspects them). -/
structure CombinedRec where
  code : String
  confidence : ℚ
  source : RecommendationSource
deriving DecidableEq

/-- The rule-based seeding loop of `_combine_recommendations`:
`all_recommendations[code] = {confidence * 0.8, RULE_BASED}` with Python dict
update semantics (replace in place, or append a new key). -/
def add_rule_based (acc : List CombinedRec) (rec : CandidateRec) : List CombinedRec :=
  let entry : CombinedRec := ⟨rec.code, rec.confidence * 0.8, RecommendationSource.rule_based⟩
  if acc.any (fun e => e.code == rec.code) then
    acc.map (fun e => if e.code == rec.code then entry else e)
  else acc ++ [entry]

/-- The ML folding loop of `_combine_recommendations`: an existing code gets
`confidence = min(1.0, existing + ml_confidence * 0.3)` and source HYBRID; a
new code is appended at its own confidence with source ML_MODEL. -/
def add_ml_based (acc : List CombinedRec) (rec : CandidateRec) : List CombinedRec :=
  if acc.any (fun e => e.code == rec.code) then
    acc.map (fun e =>
      if e.code == rec.code then
        ⟨e.code, min 1 (e.confidence + rec.confidence * 0.3), RecommendationSource.hybrid⟩
      else e)
  else acc ++ [⟨rec.code, rec.confidence, RecommendationSource.ml_model⟩]

/-- `_combine_recommendations`: seed from the rule-based channel, fold in the
ML channel, return the dict values sorted descending by confidence. -/
def combine_recommendations (rule_channel ml_channel : List CandidateRec) :
    List CombinedRec :=
  sortByDesc (fun e => e.confidence)
    (ml_channel.foldl add_ml_based (rule_channel.foldl add_rule_based []))

/-! ### CodePredictor — `core/ml/code_predictor.py` -/

/-- One category table row of `icd10_patterns`/`cpt_patterns`. -/
structure Category where
  name : String
  patterns : List String
  codes : List String
  weights : List ℚ
  context_boost : List String

/-- `icd10_patterns` from `_load_models`. -/
def icd10_patterns : List Category := [
  ⟨"cardiovascular",
    ["chest pain", "myocardial", "cardiac", "heart", "angina",
     "arrhythmia", "hypertension", "palpitations", "coronary"],
    ["I21.9", "I25.9", "I50.9", "I10", "I48.9"],
    [0.85, 0.75, 0.65, 0.90, 0.70],
    ["infarction", "disease", "failure", "primary", "atrial"]⟩,
  ⟨"respiratory",
    ["dyspnea", "shortness of breath", "COPD", "pneumonia",
     "asthma", "bronchitis", "emphysema", "respiratory"],
    ["J44.1", "J18.9", "R06.2", "J45.9", "J20.9"],
    [0.90, 0.80, 0.70, 0.85, 0.65],
    ["acute", "chronic", "exacerbation", "distress"]⟩,
  ⟨"diabetes",
    ["diabetes", "hyperglycemia", "blood sugar", "diabetic",
     "glucose", "insulin", "hemoglobin a1c"],
    ["E11.9", "E11.65", "E11.40", "E10.9", "E11.22"],
    [0.90, 0.75, 0.70, 0.80, 0.65],
    ["type 2", "type 1", "mellitus", "uncontrolled"]⟩,
  ⟨"renal",
    ["kidney", "renal", "dialysis", "nephritis", "nephropathy",
     "uremia", "creatinine", "glomerular"],
    ["N18.6", "N19", "N03.9", "N18.3", "N25.9"],
    [0.85, 0.75, 0.70, 0.80, 0.60],
    ["chronic", "acute", "failure", "disease"]⟩,
  ⟨"neurological",
    ["seizure", "epilepsy", "stroke", "headache", "migraine",
     "dementia", "parkinson", "neuropathy"],
    ["G40.9", "I63.9", "G43.9", "F03.90", "G20"],
    [0.88, 0.82, 0.75, 0.70, 0.85],
    ["focal", "generalized", "ischemic", "chronic"]⟩]

/-- `cpt_patterns` from `_load_models`. -/
def cpt_patterns : List Category := [
  ⟨"evaluation_management",
    ["office visit", "consultation", "evaluation", "exam",
     "assessment", "follow-up", "new patient", "established"],
    ["99213", "99214", "99223", "99202", "99203"],
    [0.85, 0.75, 0.80, 0.90, 0.85],
    ["comprehensive", "detailed", "straightforward"]⟩,
  ⟨"procedures_surgery",
    ["surgery", "procedure", "operation", "surgical",
     "excision", "repair", "removal", "insertion"],
    ["45378", "36415", "93010", "11042", "12001"],
    [0.80, 0.90, 0.85, 0.75, 0.70],
    ["laparoscopic", "open", "percutaneous"]⟩,
  ⟨"imaging_diagnostics",
    ["x-ray", "CT", "MRI", "ultrasound", "scan",
     "radiograph", "tomography", "echo"],
    ["71020", "74150", "70553", "76700", "93306"],
    [0.90, 0.85, 0.80, 0.85, 0.75],
    ["with contrast", "without contrast", "complete"]⟩,
  ⟨"laboratory",
    ["blood test", "lab", "laboratory", "panel",
     "culture", "biopsy", "pathology"],
    ["80053", "85025", "87040", "88305"],
    [0.85, 0.80, 0.75, 0.70],
    ["comprehensive", "basic", "complete"]⟩]

/-- `medical_specialties` from `_load_enhanced_patterns`. -/
def medical_specialties : List (String × List String) := [
  ("cardiology", ["heart", "cardiac", "cardiovascular", "coronary"]),
  ("pulmonology", ["lung", "respiratory", "pulmonary", "breathing"]),
  ("endocrinology", ["diabetes", "thyroid", "hormone", "endocrine"]),
  ("nephrology", ["kidney", "renal", "dialysis", "urinary"]),
  ("neurology", ["brain", "neurological", "seizure", "stroke"])]

/-- `severity_indicators` from `_load_enhanced_patterns`. -/
def severity_indicator_table : List (String × List String) := [
  ("high", ["acute", "severe", "critical", "emergency", "urgent"]),
  ("moderate", ["moderate", "symptomatic", "stable", "chronic"]),
  ("low", ["mild", "minimal", "resolved", "improving"])]

/-- `clinical_context_patterns` from `_load_enhanced_patterns`. -/
def clinical_context_table : List (String × List String) := [
  ("admission", ["admitted", "hospitalized", "inpatient"]),
  ("discharge", ["discharged", "released", "outpatient"]),
  ("emergency", ["emergency", "urgent", "stat", "immediate"]),
  ("routine", ["routine", "scheduled", "follow-up", "regular"])]

/-- Python `max(d, key=d.get)` over an insertion-ordered table: the first key
attaining the maximal value (later keys replace only on a strictly greater
value). -/
def argmaxFirst (first : String × Nat) (rest : List (String × Nat)) : String :=
  (rest.foldl (fun best p => if best.snd < p.snd then p else best) first).fst

/-- The clinical features consumed downstream of
`extract_enhanced_clinical_features` (fields no claim touches — counts,
lengths, `context_score` — are not tracked). -/
structure ClinicalFeatures where
  specialty_indicators : List (String × Nat)
  severity_level : String
  clinical_context : String
  temporal_indicators : List String
  anatomical_references : List String
deriving DecidableEq

/-- `extract_enhanced_clinical_features` (the argument is the lower-cased
text, as at its call sites): specialty hit counts over matched keyword lists,
severity and context labels by first-maximal keyword vote, and the temporal
and anatomical keyword hits. -/
def extract_enhanced_clinical_features (text : String) : ClinicalFeatures :=
  let specialty := medical_specialties.foldl (fun acc p =>
    let ms := p.snd.filter (fun kw => substr kw text)
    if ms.isEmpty then acc else acc ++ [(p.fst, ms.length)]) []
  let sev := severity_indicator_table.map
    (fun p => (p.fst, (p.snd.filter (fun ind => substr ind text)).length))
  let severity_level := match sev with
    | [] => "moderate"
    | s :: rest => argmaxFirst s rest
  let ctx := clinical_context_table.map
    (fun p => (p.fst, (p.snd.filter (fun ind => substr ind text)).length))
  let clinical_context := match ctx with
    | [] => "routine"
    | c :: rest => argmaxFirst c rest
  let temporal := (["acute", "chronic", "recent", "ongoing", "past", "current"] :
    List String).filter (fun tp => substr tp text)
  let anatomical := (["chest", "abdomen", "head", "limb", "back", "neck", "pelvis"] :
    List String).filter (fun a => substr a text)
  ⟨specialty, severity_level, clinical_context, temporal, anatomical⟩

/-- The result record of `_analyze_category_matches`. -/
structure CategoryMatches where
  score : ℚ
  matched_patterns : List String
  context_boost : ℚ
  feature_alignment : ℚ
  pattern_strength : ℚ
deriving DecidableEq

/-- `_calculate_feature_alignment`: `0` without matched patterns, otherwise
fixed bonuses for temporal, anatomical and specialty presence, capped at
`0.3`. -/
def calculate_feature_alignment (matched_patterns : List String)
    (cf : ClinicalFeatures) : ℚ :=
  if matched_patterns.isEmpty then 0
  else
    min 0.3 ((if cf.temporal_indicators.isEmpty then 0 else 0.1) +
      (if cf.anatomical_references.isEmpty then 0 else 0.1) +
      (if cf.specialty_indicators.isEmpty then 0 else 0.15))

/-- `_analyze_category_matches`: matched patterns with a `0.15`-per-occurrence
strength, a `0.1`-per-term context boost (independent of pattern matches), the
feature alignment, and their sum as `score`. -/
def analyze_category_matches (text : String) (cat : Category)
    (cf : ClinicalFeatures) : CategoryMatches :=
  let matched_patterns := cat.patterns.filter (fun p => substr p text)
  let pattern_strength :=
    matched_patterns.foldl (fun s p => s + (pyCount p text : ℚ) * 0.15) 0
  let context_boost :=
    cat.context_boost.foldl (fun s b => if substr b text then s + 0.1 else s) 0
  let feature_alignment := calculate_feature_alignment matched_patterns cf
  ⟨pattern_strength + context_boost + feature_alignment,
    matched_patterns, context_boost, feature_alignment, pattern_strength⟩

/-- `_calculate_enhanced_confidence`: the weighted factor combination, the
diminishing-returns compression above `0.85`, and the final `0.98` cap. -/
def calculate_enhanced_confidence (base_confidence context_boost
    feature_alignment pattern_strength : ℚ) : ℚ :=
  let confidence := base_confidence * 0.4 + context_boost * 0.2 +
    feature_alignment * 0.2 + pattern_strength * 0.2
  let confidence :=
    if 0.85 < confidence then 0.85 + (confidence - 0.85) * 0.5 else confidence
  min 0.98 confidence

/-- `_apply_clinical_context`: severity multiplier, specialty-alignment
bonus, emergency multiplier, `0.98` cap. -/
def apply_clinical_context (confidence : ℚ) (cf : ClinicalFeatures)
    (category : String) : ℚ :=
  let c :=
    if cf.severity_level = "high" then confidence * 1.1
    else if cf.severity_level = "low" then confidence * 0.9
    else confidence
  let c :=
    match cf.specialty_indicators.find? (fun p => p.fst == category) with
    | some p => c + (p.snd : ℚ) * 0.05
    | none => c
  let c := if cf.clinical_context = "emergency" then c * 1.05 else c
  min 0.98 c

/-- One prediction dict (fields derived one-to-one from `code` and
`category` — breakdown and reasoning bookkeeping — are not tracked; equality
of the tracked fields coincides with Python dict equality on these dicts). -/
structure Prediction where
  code : String
  confidence : ℚ
  features : List String
  category : String
deriving DecidableEq

/-- First pass of `_apply_diversity_filter`: keep the first (highest ranked)
prediction of each category, stopping once `max_results` entries are kept. -/
def diversity_pass1 (max_results : Nat) :
    List Prediction → List Prediction → List Prediction
  | [], acc => acc
  | p :: rest, acc =>
    if acc.any (fun q => q.category == p.category) then
      diversity_pass1 max_results rest acc
    else if max_results ≤ acc.length + 1 then acc ++ [p]
    else diversity_pass1 max_results rest (acc ++ [p])

/-- Second pass of `_apply_diversity_filter`: fill the remaining slots with
the highest-confidence predictions not yet kept. -/
def diversity_pass2 : List Prediction → List Prediction → Nat → List Prediction
  | [], acc, _ => acc
  | p :: rest, acc, slots =>
    if p ∈ acc then diversity_pass2 rest acc slots
    else
      match slots with
      | 0 => diversity_pass2 rest acc 0
      | n + 1 => diversity_pass2 rest (acc ++ [p]) n

/-- `_apply_diversity_filter`. -/
def apply_diversity_filter (predictions : List Prediction) (max_results : Nat) :
    List Prediction :=
  if predictions.length ≤ max_results then predictions
  else
    let filtered := diversity_pass1 max_results predictions []
    diversity_pass2 predictions filtered (max_results - filtered.length)

/-- `predict_icd10_codes`: per category, the `score > 0` gate admits all its
codes, each scored by `_calculate_enhanced_confidence` then
`_apply_clinical_context`, capped at `0.98`; ranked and diversity-filtered to
at most 5. -/
def predict_icd10_codes (clinical_text : String) : List Prediction :=
  let text_lower := lowerString clinical_text
  let cf := extract_enhanced_clinical_features text_lower
  let predictions := icd10_patterns.flatMap (fun cat =>
    let m := analyze_category_matches text_lower cat cf
    if 0 < m.score then
      (cat.codes.zip cat.weights).map (fun cw =>
        let confidence := calculate_enhanced_confidence cw.snd m.context_boost
          m.feature_alignment m.pattern_strength
        let confidence := apply_clinical_context confidence cf cat.name
        ⟨cw.fst, min 0.98 confidence, m.matched_patterns, cat.name⟩)
    else [])
  apply_diversity_filter (sortByDesc (fun p => p.confidence) predictions) 5

/-- `_extract_procedure_features` (`duration_indicators` stays empty in the
source and is not tracked). -/
structure ProcedureFeatures where
  procedure_verbs : List String
  anatomical_sites : List String
  technique_modifiers : List String
  complexity_indicators : List String
deriving DecidableEq

def extract_procedure_features (text : String) : ProcedureFeatures :=
  ⟨(["performed", "completed", "underwent", "excised", "repaired",
     "removed", "inserted", "biopsied", "scanned", "examined"] :
      List String).filter (fun v => substr v text),
   (["cardiac", "pulmonary", "abdominal", "thoracic", "pelvic",
     "cranial", "spinal", "vascular", "hepatic", "renal"] :
      List String).filter (fun s => substr s text),
   (["laparoscopic", "endoscopic", "percutaneous", "open",
     "minimally invasive", "robotic", "stereotactic"] :
      List String).filter (fun t => substr t text),
   (["simple", "complex", "extensive", "limited", "comprehensive"] :
      List String).filter (fun c => substr c text)⟩

/-- `_calculate_procedure_confidence` (its `cpt_code` and `category_matches`
arguments are unused in the source): fixed boosts for present feature groups,
capped at `0.4`. -/
def calculate_procedure_confidence (pf : ProcedureFeatures) : ℚ :=
  min 0.4 ((if pf.procedure_verbs.isEmpty then 0 else 0.15) +
    (if pf.anatomical_sites.isEmpty then 0 else 0.10) +
    (if pf.technique_modifiers.isEmpty then 0 else 0.08) +
    (if pf.complexity_indicators.isEmpty then 0 else 0.05))

/-- `predict_cpt_codes`: same gated structure as `predict_icd10_codes`, with
the procedure-confidence factor in the feature-alignment slot, a `0.95` cap
and at most 3 results. -/
def predict_cpt_codes (clinical_text : String) : List Prediction :=
  let text_lower := lowerString clinical_text
  let cf := extract_enhanced_clinical_features text_lower
  let pf := extract_procedure_features text_lower
  let predictions := cpt_patterns.flatMap (fun cat =>
    let m := analyze_category_matches text_lower cat cf
    if 0 < m.score then
      (cat.codes.zip cat.weights).map (fun cw =>
        let procedure_confidence := calculate_procedure_confidence pf
        let confidence := calculate_enhanced_confidence cw.snd m.context_boost
          procedure_confidence m.pattern_strength
        ⟨cw.fst, min 0.95 confidence, m.matched_patterns, cat.name⟩)
    else [])
  apply_diversity_filter (sortByDesc (fun p => p.confidence) predictions) 3
theorem insertDesc_perm (key : α → ℚ) (x : α) (l : List α) :
    List.Perm (insertDesc key x l) (x :: l) := by
  induction l with
  | nil => simp [insertDesc]
  | cons y ys ih =>
    by_cases hc : key y ≤ key x
    · simp [insertDesc, hc]
    · simp only [insertDesc, hc, if_false]
      exact (ih.cons y).trans (List.Perm.swap x y ys)

theorem sortByDesc_perm (key : α → ℚ) (l : List α) : List.Perm (sortByDesc key l) l := by
  induction l with
  | nil => simp [sortByDesc]
  | cons x xs ih => exact (insertDesc_perm key x (sortByDesc key xs)).trans (ih.cons x)

theorem mem_sortByDesc (key : α → ℚ) (l : List α) (a : α) :
    a ∈ sortByDesc key l ↔ a ∈ l :=
  (sortByDesc_perm key l).mem_iff

theorem pairwise_insertDesc (key : α → ℚ) (x : α) (l : List α)
    (h : l.Pairwise (fun a b => key b ≤ key a)) :
    (insertDesc key x l).Pairwise (fun a b => key b ≤ key a) := by
  induction l with
  | nil => simp [insertDesc]
  | cons y ys ih =>
    rcases List.pairwise_cons.mp h with ⟨hy, hys⟩
    by_cases hc : key y ≤ key x
    · simp only [insertDesc, hc, if_true]
      refine List.pairwise_cons.mpr ⟨?_, h⟩
      intro z hz
      rcases List.mem_cons.mp hz with hz | hz
      · exact hz ▸ hc
      · exact (hy z hz).trans hc
    · simp only [insertDesc, hc, if_false]
      refine List.pairwise_cons.mpr ⟨?_, ih hys⟩
      intro z hz
      rcases List.mem_cons.mp ((insertDesc_perm key x ys).mem_iff.mp hz) with hz | hz
      · subst hz
        exact le_of_lt (lt_of_not_le hc)
      · exact hy z hz

theorem sortByDesc_pairwise (key : α → ℚ) (l : List α) :
    (sortByDesc key l).Pairwise (fun a b => key b ≤ key a) := by
  induction l with
  | nil => simp [sortByDesc]
  | cons x xs ih => exact pairwise_insertDesc key x _ ih


/-! ### Generic lemmas about keyed association lists

Python dicts appear as lists with in-place update; these lemmas describe
`find?` (dict lookup) under the update operations used above. -/

theorem beq_true_of_eq {a b : String} (h : a = b) : (a == b) = true :=
  beq_iff_eq.mpr h

theorem beq_false_of_ne {a b : String} (h : a ≠ b) : (a == b) = false :=
  beq_eq_false_iff_ne.mpr h

theorem find?_update_self {α : Type} (key : α → String) (k : String) (g : α → α)
    (hg : ∀ x, key x = k → key (g x) = k) (l : List α) :
    (l.map (fun x => if key x == k then g x else x)).find? (fun x => key x == k) =
      (l.find? (fun x => key x == k)).map g := by
  induction l with
  | nil => rfl
  | cons x xs ih =>
    by_cases hx : key x = k
    · have h1 : (key x == k) = true := beq_true_of_eq hx
      have h2 : (key (g x) == k) = true := beq_true_of_eq (hg x hx)
      have e1 : List.find? (fun y => key y == k)
          (g x :: xs.map (fun y => if key y == k then g y else y)) = some (g x) :=
        List.find?_cons_of_pos _ h2
      have e2 : List.find? (fun y => key y == k) (x :: xs) = some x :=
        List.find?_cons_of_pos _ h1
      rw [List.map_cons, if_pos h1, e1, e2, Option.map_some']
    · have h1 : (key x == k) = false := beq_false_of_ne hx
      have e1 : List.find? (fun y => key y == k)
          (x :: xs.map (fun y => if key y == k then g y else y)) =
          List.find? (fun y => key y == k)
            (xs.map (fun y => if key y == k then g y else y)) :=
        List.find?_cons_of_neg _ (by simp [h1])
      have e2 : List.find? (fun y => key y == k) (x :: xs) =
          List.find? (fun y => key y == k) xs :=
        List.find?_cons_of_neg _ (by simp [h1])
      rw [List.map_cons, if_neg (by simp [h1]), e1, e2, ih]

theorem find?_update_other {α : Type} (key : α → String) (k c : String) (hck : c ≠ k)
    (g : α → α) (hg : ∀ x, key x = k → key (g x) = k) (l : List α) :
    (l.map (fun x => if key x == k then g x else x)).find? (fun x => key x == c) =
      l.find? (fun x => key x == c) := by
  induction l with
  | nil => rfl
  | cons x xs ih =>
    by_cases hx : key x = k
    · have h1 : (key x == k) = true := beq_true_of_eq hx
      have h2 : (key (g x) == c) = false :=
        beq_false_of_ne (by rw [hg x hx]; exact (Ne.symm hck))
      have h3 : (key x == c) = false := beq_false_of_ne (by rw [hx]; exact (Ne.symm hck))
      have e1 : List.find? (fun y => key y == c)
          (g x :: xs.map (fun y => if key y == k then g y else y)) =
          List.find? (fun y => key y == c)
            (xs.map (fun y => if key y == k then g y else y)) :=
        List.find?_cons_of_neg _ (by simp [h2])
      have e2 : List.find? (fun y => key y == c) (x :: xs) =
          List.find? (fun y => key y == c) xs :=
        List.find?_cons_of_neg _ (by simp [h3])
      rw [List.map_cons, if_pos h1, e1, e2, ih]
    · have h1 : (key x == k) = false := beq_false_of_ne hx
      by_cases hc : key x = c
      · have h2 : (key x == c) = true := beq_true_of_eq hc
        have e1 : List.find? (fun y => key y == c)
            (x :: xs.map (fun y => if key y == k then g y else y)) = some x :=
          List.find?_cons_of_pos _ h2
        have e2 : List.find? (fun y => key y == c) (x :: xs) = some x :=
          List.find?_cons_of_pos _ h2
        rw [List.map_cons, if_neg (by simp [h1]), e1, e2]
      · have h2 : (key x == c) = false := beq_false_of_ne hc
        have e1 : List.find? (fun y => key y == c)
            (x :: xs.map (fun y => if key y == k then g y else y)) =
            List.find? (fun y => key y == c)
              (xs.map (fun y => if key y == k then g y else y)) :=
          List.find?_cons_of_neg _ (by simp [h2])
        have e2 : List.find? (fun y => key y == c) (x :: xs) =
            List.find? (fun y => key y == c) xs :=
          List.find?_cons_of_neg _ (by simp [h2])
        rw [List.map_cons, if_neg (by simp [h1]), e1, e2, ih]

theorem map_key_update {α : Type} (key : α → String) (k : String) (g : α → α)
    (hg : ∀ x, key x = k → key (g x) = k) (l : List α) :
    (l.map (fun x => if key x == k then g x else x)).map key = l.map key := by
  induction l with
  | nil => rfl
  | cons x xs ih =>
    by_cases hx : key x = k
    · have h1 : (key x == k) = true := beq_true_of_eq hx
      rw [List.map_cons, if_pos h1, List.map_cons, List.map_cons, ih, hg x hx, hx]
    · have h1 : (key x == k) = false := beq_false_of_ne hx
      rw [List.map_cons, if_neg (by simp [h1]), List.map_cons, List.map_cons, ih]

theorem find?_key_of_mem_nodup {α : Type} (key : α → String) (l : List α) (e : α)
    (hnd : (l.map key).Nodup) (he : e ∈ l) :
    l.find? (fun x => key x == key e) = some e := by
  induction l with
  | nil => cases he
  | cons x xs ih =>
    rcases List.mem_cons.mp he with he | he
    · subst he
      simp [List.find?_cons, beq_true_of_eq rfl]
    · have hx : key x ≠ key e := by
        intro hcontra
        have : key e ∈ xs.map key := List.mem_map_of_mem key he
        rw [← hcontra] at this
        exact (List.nodup_cons.mp hnd).1 this
      have h1 : (key x == key e) = false := beq_false_of_ne hx
      simp [List.find?_cons, h1, ih (List.nodup_cons.mp hnd).2 he]

/-! ### C10 — modifier adjustments are additive -/

theorem foldl_add_shift (f : String → ℚ) (l : List String) (a : ℚ) :
    l.foldl (fun acc m => acc + f m) a = a + (l.map f).sum := by
  induction l generalizing a with
  | nil => simp
  | cons m ms ih => simp [ih]; ring

theorem apply_cpt_modifiers_eq_sum (l : List String) (b : ℚ) :
    apply_cpt_modifiers l b = (l.map (modifierDelta b)).sum := by
  have hstep : (fun (adjustment : ℚ) (m : String) =>
      if m = "50" then adjustment + b * 0.50
      else if m = "51" then adjustment - b * 0.25
      else if m = "52" then adjustment - b * 0.50
      else if m = "22" then adjustment + b * 0.25
      else if m = "53" then adjustment - b * 0.75
      else adjustment) = fun adjustment m => adjustment + modifierDelta b m := by
    funext a m
    simp only [modifierDelta]
    split_ifs <;> ring
  show l.foldl _ 0 = _
  rw [hstep, foldl_add_shift (modifierDelta b) l 0, zero_add]

/-- C10: `_apply_cpt_modifiers` is additive over concatenation of modifier
lists (deltas accumulate on the fixed base amount, they do not compound), and
any modifier outside `{"50","51","52","22","53"}` contributes exactly `0`. -/
theorem cpt_modifiers_additive :
    (∀ (b : ℚ) (m1 m2 : List String),
      apply_cpt_modifiers (m1 ++ m2) b =
        apply_cpt_modifiers m1 b + apply_cpt_modifiers m2 b) ∧
    (∀ (b : ℚ) (m : String), m ∉ (["50", "51", "52", "22", "53"] : List String) →
      apply_cpt_modifiers [m] b = 0) := by
  constructor
  · intro b m1 m2
    simp [apply_cpt_modifiers_eq_sum]
  · intro b m hm
    simp only [List.mem_cons, List.not_mem_nil, or_false, not_or] at hm
    obtain ⟨h50, h51, h52, h22, h53⟩ := hm
    simp [apply_cpt_modifiers_eq_sum, modifierDelta, h50, h51, h52, h22, h53]

/-- Witness for C10 at concrete inputs. -/
theorem cpt_modifiers_additive_witness :
    apply_cpt_modifiers (["50"] ++ ["22", "99"]) 100 =
      apply_cpt_modifiers ["50"] 100 + apply_cpt_modifiers ["22", "99"] 100 ∧
    ("99" : String) ∉ (["50", "51", "52", "22", "53"] : List String) ∧
    apply_cpt_modifiers ["99"] 100 = 0 :=
  ⟨cpt_modifiers_additive.1 100 ["50"] ["22", "99"], by decide,
    cpt_modifiers_additive.2 100 "99" (by decide)⟩

/-! ### C2 — high-cost-diagnosis surcharge -/

theorem apply_global_adjustments_cons (total : ℚ) (c : String) (cs : List String) :
    apply_global_adjustments total (c :: cs) =
      apply_global_adjustments
        (if isHighCostDiagnosis c then total + total * 0.10 else total) cs := rfl

set_option maxRecDepth 8000 in
/-- C2 counterexample: two qualifying diagnoses trigger the +10% surcharge
twice (compounding to 302.5 on a 250 total), not exactly once (275). -/
theorem high_cost_surcharge_counterexample :
    isHighCostDiagnosis "I21.0" = true ∧ isHighCostDiagnosis "I22.1" = true ∧
    apply_global_adjustments 250 ["I21.0", "I22.1"] = 302.5 ∧
    apply_global_adjustments 250 ["I21.0", "I22.1"] ≠ 250 + 250 * 0.10 := by
  refine ⟨by decide, by decide, ?_, ?_⟩ <;> with_unfolding_all decide

set_option maxRecDepth 8000 in
/-- C2 amended: `_apply_global_adjustments` applies the +10% surcharge once
per qualifying ICD-10 code, compounding: the total is multiplied by
`1.1 ^ (number of qualifying codes)`.  With exactly one qualifying diagnosis
this is the claimed single surcharge, e.g. line reimbursements 100 and 150
with one qualifying code yield 275. -/
theorem high_cost_surcharge_per_qualifying_code :
    (∀ (total : ℚ) (icd10_codes : List String),
      apply_global_adjustments total icd10_codes =
        total * (11/10) ^ (icd10_codes.countP (fun c => isHighCostDiagnosis c))) ∧
    apply_global_adjustments (100 + 150) ["C78.0"] = 275 := by
  constructor
  · intro total codes
    induction codes generalizing total with
    | nil => simp [apply_global_adjustments]
    | cons c cs ih =>
      rw [apply_global_adjustments_cons, ih, List.countP_cons]
      by_cases hc : isHighCostDiagnosis c
      · simp only [hc, if_true, if_pos]
        rw [pow_succ]
        ring
      · simp only [hc, if_false]
        norm_num
  · with_unfolding_all decide

/-! ### C3 — MCC versus CC precedence -/

/-- C3 counterexample: `["E11", "N18.6"]` contains both a CC-indicator match
(`E11`) and an MCC-indicator match (`N18.6`), yet the assigned complexity is
`"CC"`, because `_determine_complexity_level` checks MCC before CC only
within each diagnosis, scanning diagnoses in list order. -/
theorem complexity_mcc_precedence_counterexample :
    (["E11", "N18.6"].any (fun d => matchesMccIndicator d)) = true ∧
    (["E11", "N18.6"].any (fun d => matchesCcIndicator d)) = true ∧
    determine_complexity_level ["E11", "N18.6"] = "CC" ∧
    determine_complexity_level ["E11", "N18.6"] ≠ "MCC" := by decide

/-- C3 amended: the result is decided by the first diagnosis in list order
matching either indicator set, with MCC checked before CC for that diagnosis;
in particular `["N18.6", "E11"]` yields `"MCC"` (the claim's example), but an
earlier CC-only diagnosis wins over a later MCC diagnosis. -/
theorem complexity_first_matching_diagnosis :
    (∀ (secondary_diagnoses : List String),
      determine_complexity_level secondary_diagnoses =
        match secondary_diagnoses.find?
          (fun d => matchesMccIndicator d || matchesCcIndicator d) with
        | none => "None"
        | some d => if matchesMccIndicator d then "MCC" else "CC") ∧
    determine_complexity_level ["N18.6", "E11"] = "MCC" := by
  constructor
  · intro ds
    induction ds with
    | nil => rfl
    | cons d rest ih =>
      by_cases hm : matchesMccIndicator d
      · simp [determine_complexity_level, List.find?_cons, hm]
      · by_cases hcc : matchesCcIndicator d
        · simp [determine_complexity_level, List.find?_cons, hm, hcc]
        · simp [determine_complexity_level, List.find?_cons, hm, hcc, ih]
  · decide

/-! ### C8 — terminology validation fails closed -/

/-- C8: `validate_code` on any string not present in the loaded terminology
table returns a structured result with `valid = false` and the error
indicator; the embedding is a total function because the source has no
raising path (a plain membership test on both branches). -/
theorem validate_code_fails_closed (code : String)
    (h : icd10_lookup code = none) :
    (validate_code code).valid = false ∧
    (validate_code code).error = some "Code not found in terminology database" := by
  simp [validate_code, h]

/-- Witness for C8 at the empty string and at a unicode string. -/
theorem validate_code_fails_closed_witness :
    icd10_lookup "" = none ∧ (validate_code "").valid = false ∧
    (validate_code "").error = some "Code not found in terminology database" ∧
    icd10_lookup "心筋梗塞" = none ∧ (validate_code "心筋梗塞").valid = false ∧
    (validate_code "心筋梗塞").error = some "Code not found in terminology database" := by
  have h1 : icd10_lookup "" = none := by decide
  have h2 : icd10_lookup "心筋梗塞" = none := by decide
  obtain ⟨a1, a2⟩ := validate_code_fails_closed "" h1
  obtain ⟨b1, b2⟩ := validate_code_fails_closed "心筋梗塞" h2
  exact ⟨h1, a1, a2, h2, b1, b2⟩

/-! ### C6 — the heuristic confidence formula -/

/-- C6: `_calculate_enhanced_confidence` computes exactly the weighted sum
`0.4·base + 0.2·context_boost + 0.2·feature_alignment + 0.2·pattern_strength`
(in `predict_icd10_codes` the base is `weights[i]` for code index `i`),
compresses it to `0.85 + (sum − 0.85)·0.5` exactly when it exceeds `0.85`,
and caps at `0.98` last. -/
theorem enhanced_confidence_formula
    (base_confidence context_boost feature_alignment pattern_strength : ℚ) :
    calculate_enhanced_confidence base_confidence context_boost
        feature_alignment pattern_strength =
      min 0.98
        (if 0.85 < 0.4 * base_confidence + 0.2 * context_boost +
            0.2 * feature_alignment + 0.2 * pattern_strength
         then 0.85 + (0.4 * base_confidence + 0.2 * context_boost +
            0.2 * feature_alignment + 0.2 * pattern_strength - 0.85) * 0.5
         else 0.4 * base_confidence + 0.2 * context_boost +
            0.2 * feature_alignment + 0.2 * pattern_strength) := by
  unfold calculate_enhanced_confidence
  have h : base_confidence * 0.4 + context_boost * 0.2 + feature_alignment * 0.2 +
      pattern_strength * 0.2 =
      0.4 * base_confidence + 0.2 * context_boost + 0.2 * feature_alignment +
      0.2 * pattern_strength := by ring
  rw [h]

/-! ### C4 — DRG supersedes CPT -/

/-- C4 (code bug): as written, supplying any `drg_code` makes
`calculate_claim_reimbursement` raise — `_calculate_drg_reimbursement` starts
by calling `DRGService.get_drg_details`, a method that does not exist — so no
total is produced at all.  Under the spec-modelled intended DRG payment the
claimed behaviour holds: the total equals exactly the DRG payment (base rate
times the payer adjustment), for every CPT-phase total, and is not the
DRG+CPT sum. -/
theorem drg_supersedes_cpt :
    claim_total_reimbursement 100 (some "280") "medicare" none "default" [] =
      Except.error ("Failed to calculate reimbursement: " ++
        "Failed to calculate DRG reimbursement: AttributeError: get_drg_details") ∧
    (∀ (cpt_total : ℚ) (icd10_codes : List String),
      claim_total_reimbursement_spec cpt_total (some "280") "medicare" none
          "default" icd10_codes =
        some (apply_global_adjustments (drg_base_rate "280" * 1) icd10_codes)) ∧
    claim_total_reimbursement_spec 100 (some "280") "medicare" none "default" [] =
      some 8000 ∧
    claim_total_reimbursement_spec 100 (some "280") "medicaid" none "CA" [] =
      some (8000 * 0.95) ∧
    claim_total_reimbursement_spec 100 (some "280") "commercial" (some "Aetna")
        "default" [] = some (8000 * 1.15) ∧
    (8000 : ℚ) ≠ 8000 + 100 := by
  refine ⟨rfl, ?_, rfl, rfl, rfl, by norm_num⟩
  intro cpt_total icd10_codes
  simp [claim_total_reimbursement_spec, drg_payment_spec, drg_data_codes,
    drg_base_rate]

/-! ### C7 — DRG prefix fallback -/

theorem mem_fallback_fold (pfx : String) (mappings : List (String × List String))
    (init : List String) (x : String) :
    (x ∈ mappings.foldl
        (fun acc e => if strStarts e.fst pfx then acc ++ e.snd else acc) init) ↔
      x ∈ init ∨ ∃ e ∈ mappings, strStarts e.fst pfx = true ∧ x ∈ e.snd := by
  induction mappings generalizing init with
  | nil => simp
  | cons e es ih =>
    rw [List.foldl_cons]
    by_cases he : strStarts e.fst pfx
    · rw [if_pos he, ih]
      simp only [List.mem_append, List.mem_cons]
      constructor
      · rintro ((hx | hx) | ⟨e', he', hs, hx⟩)
        · exact Or.inl hx
        · exact Or.inr ⟨e, Or.inl rfl, he, hx⟩
        · exact Or.inr ⟨e', Or.inr he', hs, hx⟩
      · rintro (hx | ⟨e', (rfl | he'), hs, hx⟩)
        · exact Or.inl (Or.inl hx)
        · exact Or.inl (Or.inr hx)
        · exact Or.inr ⟨e', he', hs, hx⟩
    · rw [if_neg he, ih]
      simp only [List.mem_cons]
      constructor
      · rintro (hx | ⟨e', he', hs, hx⟩)
        · exact Or.inl hx
        · exact Or.inr ⟨e', Or.inr he', hs, hx⟩
      · rintro (hx | ⟨e', (rfl | he'), hs, hx⟩)
        · exact Or.inl hx
        · exact absurd hs (by simp [he])
        · exact Or.inr ⟨e', he', hs, hx⟩

/-- C7: when the primary diagnosis `"I21.9"` has no exact
`diagnosis_mappings` entry, `find_drg_by_diagnosis` falls back to the
3-character category prefix `"I21"`, and — whenever every `"I21"`-prefixed
entry carries the same DRG set, as in the sample table — resolves to the same
candidate DRG set as an exact `"I21.0"` lookup. -/
theorem drg_prefix_fallback (mappings : List (String × List String))
    (l0 : List String)
    (h9 : lookupMapping mappings "I21.9" = none)
    (h0 : lookupMapping mappings "I21.0" = some l0)
    (hne : l0 ≠ [])
    (hall : ∀ e ∈ mappings, strStarts e.fst "I21" = true →
      e.snd.toFinset = l0.toFinset) :
    (find_drg_candidates mappings "I21.9").toFinset =
      (find_drg_candidates mappings "I21.0").toFinset := by
  obtain ⟨e0, hfind, hsnd⟩ :
      ∃ e0, mappings.find? (fun e => e.fst == "I21.0") = some e0 ∧ e0.snd = l0 := by
    unfold lookupMapping at h0
    cases hf : mappings.find? (fun e => e.fst == "I21.0") with
    | none => rw [hf] at h0; cases h0
    | some e0 => rw [hf] at h0; exact ⟨e0, rfl, by simpa using h0⟩
  have he0mem : e0 ∈ mappings := List.mem_of_find?_eq_some hfind
  have he0fst : e0.fst = "I21.0" := by
    have := List.find?_some hfind
    simpa using this
  have he0starts : strStarts e0.fst "I21" = true := by rw [he0fst]; decide
  have hrhs : find_drg_candidates mappings "I21.0" = l0 := by
    unfold find_drg_candidates
    rw [h0]
    simp [Option.getD, List.isEmpty_iff, hne]
  have htake : strTake "I21.9" 3 = "I21" := by decide
  have hlhs : find_drg_candidates mappings "I21.9" =
      mappings.foldl
        (fun acc e => if strStarts e.fst "I21" then acc ++ e.snd else acc) [] := by
    unfold find_drg_candidates
    rw [h9]
    simp [Option.getD, htake]
  rw [hrhs, hlhs]
  ext x
  simp only [List.mem_toFinset]
  rw [mem_fallback_fold]
  constructor
  · rintro (hx | ⟨e, hemem, hs, hx⟩)
    · cases hx
    · have := hall e hemem hs
      have : x ∈ e.snd.toFinset := List.mem_toFinset.mpr hx
      rw [hall e hemem hs] at this
      exact List.mem_toFinset.mp this
  · intro hx
    refine Or.inr ⟨e0, he0mem, he0starts, ?_⟩
    have : x ∈ l0.toFinset := List.mem_toFinset.mpr hx
    rw [← hall e0 he0mem he0starts] at this
    exact List.mem_toFinset.mp this

/-- Witness for C7 on the sample table with the exact `"I21.9"` entry
removed. -/
theorem drg_prefix_fallback_witness :
    lookupMapping diagnosis_mappings_without_I21_9 "I21.9" = none ∧
    lookupMapping diagnosis_mappings_without_I21_9 "I21.0" =
      some ["280", "281", "282"] ∧
    (["280", "281", "282"] : List String) ≠ [] ∧
    (find_drg_candidates diagnosis_mappings_without_I21_9 "I21.9").toFinset =
      (find_drg_candidates diagnosis_mappings_without_I21_9 "I21.0").toFinset :=
  ⟨by decide, by decide, by decide,
    drg_prefix_fallback diagnosis_mappings_without_I21_9 ["280", "281", "282"]
      (by decide) (by decide) (by decide) (by decide)⟩

/-! ### C9 — de-duplication and ordering of `find_codes_by_text` -/

theorem find?_dedupStep (acc : List CandidateRec) (r : CandidateRec) (c : String) :
    (dedupStep acc r).find? (fun e => e.code == c) =
      bestStep c (acc.find? (fun e => e.code == c)) r := by
  cases hfind : acc.find? (fun e => e.code == r.code) with
  | none =>
    by_cases hc : r.code = c
    · subst hc
      simp only [dedupStep, bestStep, hfind, beq_self_eq_true, if_true]
      rw [List.find?_append, hfind]
      simp [List.find?_cons]
    · have hrc : (r.code == c) = false := beq_false_of_ne hc
      simp only [dedupStep, bestStep, hfind, hrc, Bool.false_eq_true, if_false]
      rw [List.find?_append]
      simp [List.find?_cons, hrc]
  | some e =>
    by_cases hlt : e.confidence < r.confidence
    · by_cases hc : r.code = c
      · subst hc
        simp only [dedupStep, bestStep, hfind, hlt, if_true, beq_self_eq_true]
        rw [find?_update_self (fun x : CandidateRec => x.code) r.code
          (fun _ => r) (fun x _ => rfl) acc, hfind]
        rfl
      · have hrc : (r.code == c) = false := beq_false_of_ne hc
        simp only [dedupStep, bestStep, hfind, hlt, if_true, hrc,
          Bool.false_eq_true, if_false]
        exact find?_update_other (fun x : CandidateRec => x.code) r.code c
          (Ne.symm hc) (fun _ => r) (fun x _ => rfl) acc
    · by_cases hc : r.code = c
      · subst hc
        simp only [dedupStep, bestStep, hfind, hlt, if_false, beq_self_eq_true,
          if_true]
      · have hrc : (r.code == c) = false := beq_false_of_ne hc
        simp only [dedupStep, bestStep, hfind, hlt, if_false, hrc,
          Bool.false_eq_true]

theorem find?_dedup_foldl (l : List CandidateRec) (c : String) :
    ∀ acc, (l.foldl dedupStep acc).find? (fun e => e.code == c) =
      l.foldl (bestStep c) (acc.find? (fun e => e.code == c)) := by
  induction l with
  | nil => intro acc; rfl
  | cons r t ih =>
    intro acc
    rw [List.foldl_cons, List.foldl_cons, ih (dedupStep acc r), find?_dedupStep]

theorem find?_dedupMax (l : List CandidateRec) (c : String) :
    (dedupMax l).find? (fun e => e.code == c) = l.foldl (bestStep c) none := by
  unfold dedupMax
  exact find?_dedup_foldl l c []

theorem bestFold_isSome_mono (c : String) (l : List CandidateRec) :
    ∀ a : CandidateRec, ∃ b, l.foldl (bestStep c) (some a) = some b ∧
      a.confidence ≤ b.confidence := by
  induction l with
  | nil => intro a; exact ⟨a, rfl, le_refl _⟩
  | cons r t ih =>
    intro a
    rw [List.foldl_cons]
    have hstep : ∃ a', bestStep c (some a) r = some a' ∧
        a.confidence ≤ a'.confidence := by
      by_cases hc : (r.code == c) = true
      · by_cases hlt : a.confidence < r.confidence
        · exact ⟨r, by simp [bestStep, hc, hlt], le_of_lt hlt⟩
        · exact ⟨a, by simp [bestStep, hc, hlt], le_refl _⟩
      · exact ⟨a, by simp [bestStep, hc], le_refl _⟩
    obtain ⟨a', ha', hle⟩ := hstep
    rw [ha']
    obtain ⟨b, hb, hle'⟩ := ih a'
    exact ⟨b, hb, hle.trans hle'⟩

theorem bestFold_mem (c : String) (l : List CandidateRec) :
    ∀ (o : Option CandidateRec) (b : CandidateRec),
      l.foldl (bestStep c) o = some b →
      o = some b ∨ (b ∈ l ∧ b.code = c) := by
  induction l with
  | nil => intro o b h; exact Or.inl h
  | cons r t ih =>
    intro o b h
    rw [List.foldl_cons] at h
    rcases ih (bestStep c o r) b h with hstep | hmem
    · by_cases hc : (r.code == c) = true
      · cases o with
        | none =>
          simp only [bestStep, hc, if_true] at hstep
          have hrb : r = b := by simpa using hstep
          exact Or.inr ⟨hrb ▸ List.mem_cons_self r t, hrb ▸ beq_iff_eq.mp hc⟩
        | some e =>
          by_cases hlt : e.confidence < r.confidence
          · simp only [bestStep, hc, if_true, hlt] at hstep
            have hrb : r = b := by simpa using hstep
            exact Or.inr ⟨hrb ▸ List.mem_cons_self r t, hrb ▸ beq_iff_eq.mp hc⟩
          · simp only [bestStep, hc, if_true, hlt, if_false] at hstep
            exact Or.inl (by simpa using hstep)
      · simp only [bestStep, hc, Bool.false_eq_true, if_false] at hstep
        exact Or.inl hstep
    · exact Or.inr ⟨List.mem_cons_of_mem r hmem.1, hmem.2⟩

theorem bestFold_ub (c : String) (l : List CandidateRec) :
    ∀ (o : Option CandidateRec) (b : CandidateRec),
      l.foldl (bestStep c) o = some b →
      ∀ r ∈ l, r.code = c → r.confidence ≤ b.confidence := by
  induction l with
  | nil => intro o b _ r hr; cases hr
  | cons x t ih =>
    intro o b h r hr hrc
    rw [List.foldl_cons] at h
    rcases List.mem_cons.mp hr with hr | hr
    · subst hr
      have hstep : ∃ a, bestStep c o r = some a ∧ r.confidence ≤ a.confidence := by
        have hc : (r.code == c) = true := beq_true_of_eq hrc
        cases o with
        | none => exact ⟨r, by simp [bestStep, hc], le_refl _⟩
        | some e =>
          by_cases hlt : e.confidence < r.confidence
          · exact ⟨r, by simp [bestStep, hc, hlt], le_refl _⟩
          · exact ⟨e, by simp [bestStep, hc, hlt], le_of_not_lt hlt⟩
      obtain ⟨a, ha, hle⟩ := hstep
      rw [ha] at h
      obtain ⟨b', hb', hle'⟩ := bestFold_isSome_mono c t a
      rw [h] at hb'
      cases hb'
      exact hle.trans hle'
    · exact ih (bestStep c o x) b h r hr hrc

theorem bestFold_some_of_mem (c : String) (l : List CandidateRec) :
    ∀ (o : Option CandidateRec) (r : CandidateRec), r ∈ l → r.code = c →
      ∃ b, l.foldl (bestStep c) o = some b := by
  induction l with
  | nil => intro o r hr; cases hr
  | cons x t ih =>
    intro o r hr hrc
    rw [List.foldl_cons]
    rcases List.mem_cons.mp hr with hr | hr
    · subst hr
      have hstep : ∃ a, bestStep c o r = some a := by
        have hc : (r.code == c) = true := beq_true_of_eq hrc
        cases o with
        | none => exact ⟨r, by simp [bestStep, hc]⟩
        | some e =>
          by_cases hlt : e.confidence < r.confidence
          · exact ⟨r, by simp [bestStep, hc, hlt]⟩
          · exact ⟨e, by simp [bestStep, hc, hlt]⟩
      obtain ⟨a, ha⟩ := hstep
      rw [ha]
      obtain ⟨b, hb, _⟩ := bestFold_isSome_mono c t a
      exact ⟨b, hb⟩
    · exact ih (bestStep c o x) r hr hrc

theorem mem_dedupStep (acc : List CandidateRec) (r x : CandidateRec)
    (h : x ∈ dedupStep acc r) : x ∈ acc ∨ x = r := by
  unfold dedupStep at h
  cases hfind : acc.find? (fun e => e.code == r.code) with
  | none =>
    rw [hfind] at h
    dsimp only at h
    rcases List.mem_append.mp h with h | h
    · exact Or.inl h
    · exact Or.inr (by simpa using h)
  | some e =>
    rw [hfind] at h
    dsimp only at h
    by_cases hlt : e.confidence < r.confidence
    · rw [if_pos hlt] at h
      obtain ⟨y, hy, hyx⟩ := List.mem_map.mp h
      by_cases hyc : (y.code == r.code) = true
      · rw [if_pos hyc] at hyx
        exact Or.inr hyx.symm
      · rw [if_neg (by simp [hyc])] at hyx
        exact Or.inl (hyx ▸ hy)
    · rw [if_neg hlt] at h
      exact Or.inl h

theorem mem_dedup_foldl (l : List CandidateRec) :
    ∀ (acc : List CandidateRec) (x : CandidateRec),
      x ∈ l.foldl dedupStep acc → x ∈ acc ∨ x ∈ l := by
  induction l with
  | nil => intro acc x h; exact Or.inl h
  | cons r t ih =>
    intro acc x h
    rw [List.foldl_cons] at h
    rcases ih (dedupStep acc r) x h with h | h
    · rcases mem_dedupStep acc r x h with h | h
      · exact Or.inl h
      · exact Or.inr (h ▸ List.mem_cons_self r t)
    · exact Or.inr (List.mem_cons_of_mem r h)

theorem nodup_codes_dedupStep (acc : List CandidateRec) (r : CandidateRec)
    (h : (acc.map (fun e => e.code)).Nodup) :
    ((dedupStep acc r).map (fun e => e.code)).Nodup := by
  cases hfind : acc.find? (fun e => e.code == r.code) with
  | none =>
    have hnotin : r.code ∉ acc.map (fun e => e.code) := by
      intro hmem
      obtain ⟨e, he, hec⟩ := List.mem_map.mp hmem
      exact (List.find?_eq_none.mp hfind e he) (beq_true_of_eq hec)
    simp only [dedupStep, hfind]
    rw [List.map_append]
    refine List.Nodup.append h (by simp) ?_
    intro a ha hb
    simp only [List.map_cons, List.map_nil, List.mem_singleton] at hb
    subst hb
    exact hnotin ha
  | some e =>
    by_cases hlt : e.confidence < r.confidence
    · simp only [dedupStep, hfind, hlt, if_true]
      rw [map_key_update (fun x : CandidateRec => x.code) r.code (fun _ => r)
        (fun x _ => rfl) acc]
      exact h
    · simp only [dedupStep, hfind, hlt, if_false]
      exact h

theorem nodup_codes_dedup_foldl (l : List CandidateRec) :
    ∀ acc : List CandidateRec, (acc.map (fun e => e.code)).Nodup →
      ((l.foldl dedupStep acc).map (fun e => e.code)).Nodup := by
  induction l with
  | nil => intro acc h; exact h
  | cons r t ih =>
    intro acc h
    rw [List.foldl_cons]
    exact ih (dedupStep acc r) (nodup_codes_dedupStep acc r h)

/-- C9: for every input text, `find_codes_by_text` returns each code at most
once, each returned entry is one of the raw keyword/pattern matches and its
confidence is an upper bound of every raw match for that code (so it is the
maximum confidence seen), every raw match's code survives, and the list is
sorted in non-increasing confidence order. -/
theorem find_codes_by_text_spec (clinical_text : String) :
    ((find_codes_by_text clinical_text).map (fun r => r.code)).Nodup ∧
    (∀ e ∈ find_codes_by_text clinical_text,
      e ∈ raw_recommendations clinical_text ∧
      ∀ r ∈ raw_recommendations clinical_text, r.code = e.code →
        r.confidence ≤ e.confidence) ∧
    (∀ r ∈ raw_recommendations clinical_text,
      ∃ e ∈ find_codes_by_text clinical_text, e.code = r.code) ∧
    (find_codes_by_text clinical_text).Pairwise
      (fun a b => b.confidence ≤ a.confidence) := by
  have hnodup : ((dedupMax (raw_recommendations clinical_text)).map
      (fun e => e.code)).Nodup :=
    nodup_codes_dedup_foldl (raw_recommendations clinical_text) [] (by simp)
  have hperm := sortByDesc_perm (fun r : CandidateRec => r.confidence)
    (dedupMax (raw_recommendations clinical_text))
  refine ⟨?_, ?_, ?_, ?_⟩
  · exact ((hperm.map (fun e => e.code)).nodup_iff).mpr hnodup
  · intro e he
    have hed : e ∈ dedupMax (raw_recommendations clinical_text) :=
      (mem_sortByDesc _ _ e).mp he
    have heraw : e ∈ raw_recommendations clinical_text := by
      rcases mem_dedup_foldl (raw_recommendations clinical_text) [] e hed with h | h
      · cases h
      · exact h
    refine ⟨heraw, ?_⟩
    intro r hr hrc
    have hfind : (dedupMax (raw_recommendations clinical_text)).find?
        (fun x => x.code == e.code) = some e :=
      find?_key_of_mem_nodup (fun x : CandidateRec => x.code) _ e hnodup hed
    rw [find?_dedupMax] at hfind
    exact bestFold_ub e.code (raw_recommendations clinical_text) none e hfind r hr hrc
  · intro r hr
    obtain ⟨b, hb⟩ := bestFold_some_of_mem r.code
      (raw_recommendations clinical_text) none r hr rfl
    have hfind : (dedupMax (raw_recommendations clinical_text)).find?
        (fun x => x.code == r.code) = some b := by
      rw [find?_dedupMax]; exact hb
    refine ⟨b, (mem_sortByDesc _ _ b).mpr (List.mem_of_find?_eq_some hfind), ?_⟩
    have := List.find?_some hfind
    simpa using this
  · exact sortByDesc_pairwise _ _

set_option maxRecDepth 4000 in
/-- Witness for C9 on the text `"chest pain"`: the keyword match at 0.8 and
the pattern match at 0.7 both produce `I21.9`; the retained entry is the 0.8
one and dominates the 0.7 raw match. -/
theorem find_codes_by_text_spec_witness :
    ((⟨"I21.9", 0.8⟩ : CandidateRec) ∈ find_codes_by_text "chest pain") ∧
    ((⟨"I21.9", 0.7⟩ : CandidateRec) ∈ raw_recommendations "chest pain") ∧
    (CandidateRec.confidence ⟨"I21.9", 0.7⟩ ≤
      CandidateRec.confidence ⟨"I21.9", 0.8⟩) ∧
    (∃ e ∈ find_codes_by_text "chest pain", e.code = "I21.9") := by
  have hmem : (⟨"I21.9", 0.8⟩ : CandidateRec) ∈ find_codes_by_text "chest pain" := by
    with_unfolding_all decide
  have hraw : (⟨"I21.9", 0.7⟩ : CandidateRec) ∈ raw_recommendations "chest pain" := by
    with_unfolding_all decide
  have h := find_codes_by_text_spec "chest pain"
  exact ⟨hmem, hraw, (h.2.1 _ hmem).2 _ hraw rfl, h.2.2.1 ⟨"I21.9", 0.7⟩ hraw⟩

/-! ### C1 — combiner agreement law -/

theorem find?_add_rule_based_self (acc : List CombinedRec) (rec : CandidateRec) :
    (add_rule_based acc rec).find? (fun e => e.code == rec.code) =
      some ⟨rec.code, rec.confidence * 0.8, RecommendationSource.rule_based⟩ := by
  by_cases hany : acc.any (fun e => e.code == rec.code) = true
  · simp only [add_rule_based, hany, if_true]
    rw [find?_update_self (fun e : CombinedRec => e.code) rec.code
      (fun _ => ⟨rec.code, rec.confidence * 0.8, RecommendationSource.rule_based⟩)
      (fun x _ => rfl) acc]
    obtain ⟨x, hx, hpx⟩ := List.any_eq_true.mp hany
    have hsome : (acc.find? (fun e => e.code == rec.code)).isSome :=
      List.find?_isSome.mpr ⟨x, hx, hpx⟩
    obtain ⟨e, he⟩ := Option.isSome_iff_exists.mp hsome
    rw [he]
    rfl
  · simp only [add_rule_based, hany, Bool.false_eq_true, if_false]
    rw [List.find?_append]
    have hnone : acc.find? (fun e => e.code == rec.code) = none := by
      rw [List.find?_eq_none]
      intro x hx hpx
      exact hany (List.any_eq_true.mpr ⟨x, hx, hpx⟩)
    rw [hnone]
    simp [List.find?_cons]

theorem find?_add_rule_based_other (acc : List CombinedRec) (rec : CandidateRec)
    (c : String) (hc : c ≠ rec.code) :
    (add_rule_based acc rec).find? (fun e => e.code == c) =
      acc.find? (fun e => e.code == c) := by
  by_cases hany : acc.any (fun e => e.code == rec.code) = true
  · simp only [add_rule_based, hany, if_true]
    exact find?_update_other (fun e : CombinedRec => e.code) rec.code c hc
      (fun _ => ⟨rec.code, rec.confidence * 0.8, RecommendationSource.rule_based⟩)
      (fun x _ => rfl) acc
  · simp only [add_rule_based, hany, Bool.false_eq_true, if_false]
    rw [List.find?_append]
    have hlast : ([(⟨rec.code, rec.confidence * 0.8,
        RecommendationSource.rule_based⟩ : CombinedRec)]).find?
        (fun e => e.code == c) = none := by
      simp [List.find?_cons, beq_false_of_ne (Ne.symm hc)]
    rw [hlast, Option.or_none]

theorem find?_add_ml_based_boost (acc : List CombinedRec) (rec : CandidateRec)
    (b : CombinedRec) (hb : acc.find? (fun e => e.code == rec.code) = some b) :
    (add_ml_based acc rec).find? (fun e => e.code == rec.code) =
      some ⟨b.code, min 1 (b.confidence + rec.confidence * 0.3),
        RecommendationSource.hybrid⟩ := by
  have hany : acc.any (fun e => e.code == rec.code) = true := by
    have hmemb := List.mem_of_find?_eq_some hb
    have hpb := List.find?_some hb
    exact List.any_eq_true.mpr ⟨b, hmemb, hpb⟩
  simp only [add_ml_based, hany, if_true]
  rw [find?_update_self (fun e : CombinedRec => e.code) rec.code
    (fun e => ⟨e.code, min 1 (e.confidence + rec.confidence * 0.3),
      RecommendationSource.hybrid⟩)
    (fun x hx => hx) acc, hb]
  rfl

theorem find?_add_ml_based_other (acc : List CombinedRec) (rec : CandidateRec)
    (c : String) (hc : c ≠ rec.code) :
    (add_ml_based acc rec).find? (fun e => e.code == c) =
      acc.find? (fun e => e.code == c) := by
  by_cases hany : acc.any (fun e => e.code == rec.code) = true
  · simp only [add_ml_based, hany, if_true]
    exact find?_update_other (fun e : CombinedRec => e.code) rec.code c hc
      (fun e => ⟨e.code, min 1 (e.confidence + rec.confidence * 0.3),
        RecommendationSource.hybrid⟩)
      (fun x hx => hx) acc
  · simp only [add_ml_based, hany, Bool.false_eq_true, if_false]
    rw [List.find?_append]
    have hlast : ([(⟨rec.code, rec.confidence,
        RecommendationSource.ml_model⟩ : CombinedRec)]).find?
        (fun e => e.code == c) = none := by
      simp [List.find?_cons, beq_false_of_ne (Ne.symm hc)]
    rw [hlast, Option.or_none]

theorem find?_foldl_add_rule_of_not_mem (c : String) (l : List CandidateRec)
    (hl : ∀ r ∈ l, r.code ≠ c) :
    ∀ acc, (l.foldl add_rule_based acc).find? (fun e => e.code == c) =
      acc.find? (fun e => e.code == c) := by
  induction l with
  | nil => intro acc; rfl
  | cons h t ih =>
    intro acc
    rw [List.foldl_cons,
      ih (fun r hr => hl r (List.mem_cons_of_mem h hr)) (add_rule_based acc h),
      find?_add_rule_based_other acc h c
        (Ne.symm (hl h (List.mem_cons_self h t)))]

theorem find?_foldl_add_ml_of_not_mem (c : String) (l : List CandidateRec)
    (hl : ∀ r ∈ l, r.code ≠ c) :
    ∀ acc, (l.foldl add_ml_based acc).find? (fun e => e.code == c) =
      acc.find? (fun e => e.code == c) := by
  induction l with
  | nil => intro acc; rfl
  | cons h t ih =>
    intro acc
    rw [List.foldl_cons,
      ih (fun r hr => hl r (List.mem_cons_of_mem h hr)) (add_ml_based acc h),
      find?_add_ml_based_other acc h c
        (Ne.symm (hl h (List.mem_cons_self h t)))]

theorem rule_phase (c : String) (er : CandidateRec) :
    ∀ l : List CandidateRec, l.filter (fun e => e.code == c) = [er] →
    ∀ acc, (l.foldl add_rule_based acc).find? (fun e => e.code == c) =
      some ⟨er.code, er.confidence * 0.8, RecommendationSource.rule_based⟩ := by
  intro l
  induction l with
  | nil => intro hfilter; simp at hfilter
  | cons h t ih =>
    intro hfilter acc
    rw [List.foldl_cons]
    by_cases hp : (h.code == c) = true
    · rw [List.filter_cons, if_pos hp] at hfilter
      have hhe : h = er := (List.cons.injEq _ _ _ _).mp hfilter |>.1
      have htnil : t.filter (fun e => e.code == c) = [] :=
        (List.cons.injEq _ _ _ _).mp hfilter |>.2
      have ht : ∀ r ∈ t, r.code ≠ c := by
        intro r hr hrc
        have : r ∈ t.filter (fun e => e.code == c) :=
          List.mem_filter.mpr ⟨hr, beq_true_of_eq hrc⟩
        rw [htnil] at this
        cases this
      rw [find?_foldl_add_rule_of_not_mem c t ht (add_rule_based acc h)]
      have hci : h.code = c := beq_iff_eq.mp hp
      rw [← hci, find?_add_rule_based_self acc h, hhe]
    · rw [List.filter_cons, if_neg (by simp [hp])] at hfilter
      exact ih hfilter (add_rule_based acc h)

theorem ml_phase (c : String) (em : CandidateRec) :
    ∀ l : List CandidateRec, l.filter (fun e => e.code == c) = [em] →
    ∀ (acc : List CombinedRec) (b : CombinedRec),
      acc.find? (fun e => e.code == c) = some b →
      (l.foldl add_ml_based acc).find? (fun e => e.code == c) =
        some ⟨b.code, min 1 (b.confidence + em.confidence * 0.3),
          RecommendationSource.hybrid⟩ := by
  intro l
  induction l with
  | nil => intro hfilter; simp at hfilter
  | cons h t ih =>
    intro hfilter acc b hb
    rw [List.foldl_cons]
    by_cases hp : (h.code == c) = true
    · rw [List.filter_cons, if_pos hp] at hfilter
      have hhe : h = em := (List.cons.injEq _ _ _ _).mp hfilter |>.1
      have htnil : t.filter (fun e => e.code == c) = [] :=
        (List.cons.injEq _ _ _ _).mp hfilter |>.2
      have ht : ∀ r ∈ t, r.code ≠ c := by
        intro r hr hrc
        have : r ∈ t.filter (fun e => e.code == c) :=
          List.mem_filter.mpr ⟨hr, beq_true_of_eq hrc⟩
        rw [htnil] at this
        cases this
      rw [find?_foldl_add_ml_of_not_mem c t ht (add_ml_based acc h)]
      have hci : h.code = c := beq_iff_eq.mp hp
      have hb' : acc.find? (fun e => e.code == h.code) = some b := by
        rw [hci]; exact hb
      rw [← hci, find?_add_ml_based_boost acc h b hb', hhe]
    · rw [List.filter_cons, if_neg (by simp [hp])] at hfilter
      have hb' : (add_ml_based acc h).find? (fun e => e.code == c) = some b := by
        rw [find?_add_ml_based_other acc h c
          (fun hch => by simp [beq_true_of_eq hch.symm] at hp)]
        exact hb
      exact ih hfilter (add_ml_based acc h) b hb'

theorem nodup_codes_add_rule (acc : List CombinedRec) (rec : CandidateRec)
    (h : (acc.map (fun e => e.code)).Nodup) :
    ((add_rule_based acc rec).map (fun e => e.code)).Nodup := by
  by_cases hany : acc.any (fun e => e.code == rec.code) = true
  · simp only [add_rule_based, hany, if_true]
    rw [map_key_update (fun e : CombinedRec => e.code) rec.code
      (fun _ => ⟨rec.code, rec.confidence * 0.8, RecommendationSource.rule_based⟩)
      (fun x _ => rfl) acc]
    exact h
  · simp only [add_rule_based, hany, Bool.false_eq_true, if_false]
    rw [List.map_append]
    refine List.Nodup.append h (by simp) ?_
    intro a ha hb
    simp only [List.map_cons, List.map_nil, List.mem_singleton] at hb
    subst hb
    obtain ⟨e, he, hec⟩ := List.mem_map.mp ha
    exact hany (List.any_eq_true.mpr ⟨e, he, beq_true_of_eq hec⟩)

theorem nodup_codes_add_ml (acc : List CombinedRec) (rec : CandidateRec)
    (h : (acc.map (fun e => e.code)).Nodup) :
    ((add_ml_based acc rec).map (fun e => e.code)).Nodup := by
  by_cases hany : acc.any (fun e => e.code == rec.code) = true
  · simp only [add_ml_based, hany, if_true]
    rw [map_key_update (fun e : CombinedRec => e.code) rec.code
      (fun e => ⟨e.code, min 1 (e.confidence + rec.confidence * 0.3),
        RecommendationSource.hybrid⟩)
      (fun x hx => hx) acc]
    exact h
  · simp only [add_ml_based, hany, Bool.false_eq_true, if_false]
    rw [List.map_append]
    refine List.Nodup.append h (by simp) ?_
    intro a ha hb
    simp only [List.map_cons, List.map_nil, List.mem_singleton] at hb
    subst hb
    obtain ⟨e, he, hec⟩ := List.mem_map.mp ha
    exact hany (List.any_eq_true.mpr ⟨e, he, beq_true_of_eq hec⟩)

theorem nodup_codes_foldl_add_rule (l : List CandidateRec) :
    ∀ acc : List CombinedRec, (acc.map (fun e => e.code)).Nodup →
      ((l.foldl add_rule_based acc).map (fun e => e.code)).Nodup := by
  induction l with
  | nil => intro acc h; exact h
  | cons r t ih =>
    intro acc h
    rw [List.foldl_cons]
    exact ih (add_rule_based acc r) (nodup_codes_add_rule acc r h)

theorem nodup_codes_foldl_add_ml (l : List CandidateRec) :
    ∀ acc : List CombinedRec, (acc.map (fun e => e.code)).Nodup →
      ((l.foldl add_ml_based acc).map (fun e => e.code)).Nodup := by
  induction l with
  | nil => intro acc h; exact h
  | cons r t ih =>
    intro acc h
    rw [List.foldl_cons]
    exact ih (add_ml_based acc r) (nodup_codes_add_ml acc r h)

/-- C1: if code `X` occurs in the rule-based channel with confidence `r` (as
its only entry for `X`) and in the ML channel with confidence `m` (likewise),
then `_combine_recommendations` returns an entry for `X`, and every returned
entry for `X` has confidence exactly `min 1 (r·0.8 + m·0.3)` with source
HYBRID. -/
theorem combiner_agreement (rule_channel ml_channel : List CandidateRec)
    (x_code : String) (r m : ℚ)
    (hr : rule_channel.filter (fun e => e.code == x_code) = [⟨x_code, r⟩])
    (hm : ml_channel.filter (fun e => e.code == x_code) = [⟨x_code, m⟩]) :
    (∃ e ∈ combine_recommendations rule_channel ml_channel, e.code = x_code) ∧
    (∀ e ∈ combine_recommendations rule_channel ml_channel, e.code = x_code →
      e.confidence = min 1 (r * 0.8 + m * 0.3) ∧
      e.source = RecommendationSource.hybrid) := by
  have h1 := rule_phase x_code ⟨x_code, r⟩ rule_channel hr []
  have h2 := ml_phase x_code ⟨x_code, m⟩ ml_channel hm
    (rule_channel.foldl add_rule_based [])
    ⟨x_code, r * 0.8, RecommendationSource.rule_based⟩ h1
  have htarget_mem : (⟨x_code, min 1 (r * 0.8 + m * 0.3),
      RecommendationSource.hybrid⟩ : CombinedRec) ∈
      ml_channel.foldl add_ml_based (rule_channel.foldl add_rule_based []) :=
    List.mem_of_find?_eq_some h2
  have hnodupM : ((ml_channel.foldl add_ml_based
      (rule_channel.foldl add_rule_based [])).map (fun e => e.code)).Nodup :=
    nodup_codes_foldl_add_ml ml_channel _
      (nodup_codes_foldl_add_rule rule_channel [] (by simp))
  constructor
  · exact ⟨_, (mem_sortByDesc _ _ _).mpr htarget_mem, rfl⟩
  · intro e he hec
    have heM : e ∈ ml_channel.foldl add_ml_based
        (rule_channel.foldl add_rule_based []) :=
      (mem_sortByDesc _ _ e).mp he
    have hfe := find?_key_of_mem_nodup (fun x : CombinedRec => x.code) _ e
      hnodupM heM
    simp only [] at hfe
    rw [hec] at hfe
    rw [h2] at hfe
    have heq : (⟨x_code, min 1 (r * 0.8 + m * 0.3),
        RecommendationSource.hybrid⟩ : CombinedRec) = e := Option.some.inj hfe
    rw [← heq]
    exact ⟨rfl, rfl⟩

/-- Witness for C1 at the claim's numeric example: `r = 0.8`, `m = 0.9` gives
confidence `0.91` with source HYBRID. -/
theorem combiner_agreement_witness :
    ([⟨"I21.9", 0.8⟩] : List CandidateRec).filter
      (fun e => e.code == "I21.9") = [⟨"I21.9", 0.8⟩] ∧
    ([⟨"I21.9", 0.9⟩] : List CandidateRec).filter
      (fun e => e.code == "I21.9") = [⟨"I21.9", 0.9⟩] ∧
    (∃ e ∈ combine_recommendations [⟨"I21.9", 0.8⟩] [⟨"I21.9", 0.9⟩],
      e.code = "I21.9") ∧
    (∀ e ∈ combine_recommendations [⟨"I21.9", 0.8⟩] [⟨"I21.9", 0.9⟩],
      e.code = "I21.9" →
      e.confidence = min 1 (0.8 * 0.8 + 0.9 * 0.3) ∧
      e.source = RecommendationSource.hybrid) ∧
    min (1 : ℚ) (0.8 * 0.8 + 0.9 * 0.3) = 0.91 := by
  have hf1 : ([⟨"I21.9", 0.8⟩] : List CandidateRec).filter
      (fun e => e.code == "I21.9") = [⟨"I21.9", 0.8⟩] := by
    with_unfolding_all decide
  have hf2 : ([⟨"I21.9", 0.9⟩] : List CandidateRec).filter
      (fun e => e.code == "I21.9") = [⟨"I21.9", 0.9⟩] := by
    with_unfolding_all decide
  have h := combiner_agreement [⟨"I21.9", 0.8⟩] [⟨"I21.9", 0.9⟩] "I21.9" 0.8 0.9
    hf1 hf2
  exact ⟨hf1, hf2, h.1, h.2, by norm_num⟩

/-! ### C5 — category gating in the heuristic predictor -/

theorem context_boost_foldl (text : String) (l : List String) :
    ∀ init : ℚ, l.foldl (fun s b => if substr b text then s + 0.1 else s) init =
      init + ((l.filter (fun b => substr b text)).length : ℚ) * 0.1 := by
  induction l with
  | nil => intro init; simp
  | cons b t ih =>
    intro init
    rw [List.foldl_cons]
    by_cases hb : substr b text = true
    · rw [if_pos hb, ih, List.filter_cons, if_pos hb]
      push_cast [List.length_cons]
      ring
    · rw [if_neg (by simp [hb]), ih, List.filter_cons, if_neg (by simp [hb])]

theorem score_pos_disjunction (text : String) (cat : Category)
    (cf : ClinicalFeatures)
    (h : 0 < (analyze_category_matches text cat cf).score) :
    (∃ p ∈ cat.patterns, substr p text = true) ∨
    (∃ b ∈ cat.context_boost, substr b text = true) := by
  by_cases hm : cat.patterns.filter (fun p => substr p text) = []
  · right
    have hscore : (analyze_category_matches text cat cf).score =
        cat.context_boost.foldl
          (fun s b => if substr b text then s + 0.1 else s) 0 := by
      simp only [analyze_category_matches]
      rw [hm]
      simp [calculate_feature_alignment]
    rw [hscore, context_boost_foldl text cat.context_boost 0, zero_add] at h
    have hlen : (cat.context_boost.filter (fun b => substr b text)) ≠ [] := by
      intro hnil
      rw [hnil] at h
      norm_num at h
    obtain ⟨b, hb⟩ := List.exists_mem_of_ne_nil _ hlen
    have hbm := List.mem_filter.mp hb
    exact ⟨b, hbm.1, hbm.2⟩
  · left
    obtain ⟨p, hp⟩ := List.exists_mem_of_ne_nil _ hm
    have hpm := List.mem_filter.mp hp
    exact ⟨p, hpm.1, hpm.2⟩

theorem diversity_pass1_cons (max_results : Nat) (p : Prediction)
    (rest acc : List Prediction) :
    diversity_pass1 max_results (p :: rest) acc =
      if acc.any (fun q => q.category == p.category) then
        diversity_pass1 max_results rest acc
      else if max_results ≤ acc.length + 1 then acc ++ [p]
      else diversity_pass1 max_results rest (acc ++ [p]) := rfl

theorem diversity_pass2_cons (p : Prediction) (rest acc : List Prediction)
    (slots : Nat) :
    diversity_pass2 (p :: rest) acc slots =
      if p ∈ acc then diversity_pass2 rest acc slots
      else
        match slots with
        | 0 => diversity_pass2 rest acc 0
        | n + 1 => diversity_pass2 rest (acc ++ [p]) n := rfl

theorem mem_diversity_pass1 (max_results : Nat) :
    ∀ (l acc : List Prediction) (x : Prediction),
      x ∈ diversity_pass1 max_results l acc → x ∈ acc ∨ x ∈ l := by
  intro l
  induction l with
  | nil => intro acc x h; exact Or.inl h
  | cons p rest ih =>
    intro acc x h
    rw [diversity_pass1_cons] at h
    by_cases hc : acc.any (fun q => q.category == p.category) = true
    · rw [if_pos hc] at h
      rcases ih acc x h with h | h
      · exact Or.inl h
      · exact Or.inr (List.mem_cons_of_mem p h)
    · rw [if_neg (by simp [hc])] at h
      by_cases hl : max_results ≤ acc.length + 1
      · rw [if_pos hl] at h
        rcases List.mem_append.mp h with h | h
        · exact Or.inl h
        · exact Or.inr (by simp [List.mem_singleton.mp h])
      · rw [if_neg hl] at h
        rcases ih (acc ++ [p]) x h with h | h
        · rcases List.mem_append.mp h with h | h
          · exact Or.inl h
          · exact Or.inr (by simp [List.mem_singleton.mp h])
        · exact Or.inr (List.mem_cons_of_mem p h)

theorem mem_diversity_pass2 :
    ∀ (l acc : List Prediction) (slots : Nat) (x : Prediction),
      x ∈ diversity_pass2 l acc slots → x ∈ acc ∨ x ∈ l := by
  intro l
  induction l with
  | nil => intro acc slots x h; exact Or.inl h
  | cons p rest ih =>
    intro acc slots x h
    rw [diversity_pass2_cons] at h
    by_cases hmem : p ∈ acc
    · rw [if_pos hmem] at h
      rcases ih acc slots x h with h | h
      · exact Or.inl h
      · exact Or.inr (List.mem_cons_of_mem p h)
    · rw [if_neg hmem] at h
      cases slots with
      | zero =>
        rcases ih acc 0 x h with h | h
        · exact Or.inl h
        · exact Or.inr (List.mem_cons_of_mem p h)
      | succ n =>
        rcases ih (acc ++ [p]) n x h with h | h
        · rcases List.mem_append.mp h with h | h
          · exact Or.inl h
          · exact Or.inr (by simp [List.mem_singleton.mp h])
        · exact Or.inr (List.mem_cons_of_mem p h)

theorem mem_apply_diversity_filter (preds : List Prediction) (n : Nat)
    (x : Prediction) (h : x ∈ apply_diversity_filter preds n) : x ∈ preds := by
  simp only [apply_diversity_filter] at h
  by_cases hl : preds.length ≤ n
  · rw [if_pos hl] at h
    exact h
  · rw [if_neg hl] at h
    rcases mem_diversity_pass2 preds _ _ x h with h | h
    · rcases mem_diversity_pass1 n preds [] x h with h | h
      · cases h
      · exact h
    · exact h

/-- C5 amended: every prediction emitted by `predict_icd10_codes` or
`predict_cpt_codes` comes from a category whose gate `score > 0` passed,
which requires at least one of that category's pattern phrases **or**
context-boost phrases to occur in the lower-cased text (feature alignment is
zero without a matched pattern, so it cannot open the gate by itself).  The
original claim — a pattern phrase must occur — fails: a context-boost phrase
alone opens the gate. -/
theorem predictor_category_gating :
    (∀ (clinical_text : String) (e : Prediction),
      e ∈ predict_icd10_codes clinical_text →
      ∃ cat ∈ icd10_patterns, e.category = cat.name ∧
        ((∃ p ∈ cat.patterns, substr p (lowerString clinical_text) = true) ∨
         (∃ b ∈ cat.context_boost,
            substr b (lowerString clinical_text) = true))) ∧
    (∀ (clinical_text : String) (e : Prediction),
      e ∈ predict_cpt_codes clinical_text →
      ∃ cat ∈ cpt_patterns, e.category = cat.name ∧
        ((∃ p ∈ cat.patterns, substr p (lowerString clinical_text) = true) ∨
         (∃ b ∈ cat.context_boost,
            substr b (lowerString clinical_text) = true))) := by
  constructor
  · intro clinical_text e he
    simp only [predict_icd10_codes] at he
    have hp := mem_apply_diversity_filter _ _ _ he
    rw [mem_sortByDesc] at hp
    obtain ⟨cat, hcat, hin⟩ := List.mem_flatMap.mp hp
    by_cases hscore : 0 < (analyze_category_matches (lowerString clinical_text)
        cat (extract_enhanced_clinical_features (lowerString clinical_text))).score
    · rw [if_pos hscore] at hin
      obtain ⟨cw, _, hcw⟩ := List.mem_map.mp hin
      refine ⟨cat, hcat, ?_, score_pos_disjunction _ cat _ hscore⟩
      rw [← hcw]
    · rw [if_neg hscore] at hin
      cases hin
  · intro clinical_text e he
    simp only [predict_cpt_codes] at he
    have hp := mem_apply_diversity_filter _ _ _ he
    rw [mem_sortByDesc] at hp
    obtain ⟨cat, hcat, hin⟩ := List.mem_flatMap.mp hp
    by_cases hscore : 0 < (analyze_category_matches (lowerString clinical_text)
        cat (extract_enhanced_clinical_features (lowerString clinical_text))).score
    · rw [if_pos hscore] at hin
      obtain ⟨cw, _, hcw⟩ := List.mem_map.mp hin
      refine ⟨cat, hcat, ?_, score_pos_disjunction _ cat _ hscore⟩
      rw [← hcw]
    · rw [if_neg hscore] at hin
      cases hin


set_option maxRecDepth 4000 in
/-- C5 counterexample: on the text `"infarction"` no cardiovascular pattern
phrase occurs, yet the cardiovascular category emits candidates, because the
context-boost term `"infarction"` alone makes `score > 0`. -/
theorem predictor_category_gating_counterexample :
    ((predict_icd10_codes "infarction").any
      (fun e => e.category == "cardiovascular")) = true ∧
    ((icd10_patterns.filter (fun cat => cat.name == "cardiovascular")).all
      (fun cat => cat.patterns.all
        (fun p => !(substr p (lowerString "infarction"))))) = true := by
  constructor
  · with_unfolding_all decide
  · decide

set_option maxRecDepth 4000 in
/-- Witness for C5: concrete predictions produced by boost-only and
pattern-matched categories. -/
theorem predictor_category_gating_witness :
    ((⟨"I21.9", 0.396, [], "cardiovascular"⟩ : Prediction) ∈
      predict_icd10_codes "infarction") ∧
    (∃ cat ∈ icd10_patterns,
      (⟨"I21.9", 0.396, [], "cardiovascular"⟩ : Prediction).category = cat.name ∧
      ((∃ p ∈ cat.patterns, substr p (lowerString "infarction") = true) ∨
       (∃ b ∈ cat.context_boost, substr b (lowerString "infarction") = true))) ∧
    ((⟨"36415", 0.39, ["surgery"], "procedures_surgery"⟩ : Prediction) ∈
      predict_cpt_codes "surgery") ∧
    (∃ cat ∈ cpt_patterns,
      (⟨"36415", 0.39, ["surgery"], "procedures_surgery"⟩ :
        Prediction).category = cat.name ∧
      ((∃ p ∈ cat.patterns, substr p (lowerString "surgery") = true) ∨
       (∃ b ∈ cat.context_boost, substr b (lowerString "surgery") = true))) := by
  have h1 : (⟨"I21.9", 0.396, [], "cardiovascular"⟩ : Prediction) ∈
      predict_icd10_codes "infarction" := by
    with_unfolding_all decide
  have h2 : (⟨"36415", 0.39, ["surgery"], "procedures_surgery"⟩ : Prediction) ∈
      predict_cpt_codes "surgery" := by
    with_unfolding_all decide
  exact ⟨h1, predictor_category_gating.1 "infarction" _ h1, h2,
    predictor_category_gating.2 "surgery" _ h2⟩

end FairClaimRCM
